import Mathlib

/-!
# visionrt: V4L2 capture session, buffer ring and format scoring

A shallow embedding of `csrc/utils.hpp`, `csrc/v4l2.hpp`, `csrc/buffers.hpp` and
`csrc/camera.hpp`.

Conventions of the embedding.

* `double` is a type `F` with the comparisons `<=` and `<`, the value `0` and the literal
  `1.5`, extended by `⊥` for `-INFINITY` (`WithBot F`).  The operations whose result depends
  on rounding or on the C library (conversion from `int`, product, sum, the quotient of two
  `__u32`, `std::log`, `std::sqrt`) are the fields of a `Libm F` and are left open: a
  statement about scores or candidates holds for whatever they return.  Statements about
  the candidates hold for every such `F`, which may hold `+inf` and NaN, among them the
  doubles themselves (`floatLibm`).  Statements about the greatest score take `F` to be a
  linearly ordered field, which has neither.  Where magnitudes matter the statement takes
  `F = ℝ`, a double being the real number it denotes, and assumes of the operations only
  that they are `Accurate`, that is correct up to a stated relative error.  What hangs on
  how a single operation rounds, such as the order of two scores that differ in the last
  places, is not stated.
* Values read from `__u32` fields are reduced modulo `2 ^ 32`; conversions to `int` and
  `size_t` are explicit (`toInt32`, `toSizeT`).  Loop indices are natural numbers.
* The device is a kernel double.  Its answers to the three enumeration controls are the
  finite lists of a `Device`; the answer of every other call is given by a `Kernel`, a
  function of the history of calls issued so far (latest first), so that any call can fail
  at any time.  The history is the trace the theorems speak about.
* A C++ function that may throw returns an `Except Err _` together with the history and
  the object state at the moment it returns or throws.
* The enumeration loops `for (int idx = 0;; idx++)` take a number of iterations `fuel` and
  return `none` when it does not suffice.
-/

namespace VisionRT

/-! ## Constants of `linux/videodev2.h` used by the sources, with the values of that header -/

def V4L2_FMT_FLAG_COMPRESSED : Nat := 0x0001
def V4L2_FRMSIZE_TYPE_DISCRETE : Nat := 1
def V4L2_FRMIVAL_TYPE_DISCRETE : Nat := 1
def V4L2_CAP_STREAMING : Nat := 0x04000000
def V4L2_CAP_EXT_PIX_FORMAT : Nat := 0x00200000

/-- Answer of `VIDIOC_ENUM_FMT`: the fields of `v4l2_fmtdesc` the sources read. -/
structure v4l2_fmtdesc where
  flags : Nat
  pixelformat : Nat
  description : String
deriving DecidableEq, Repr

/-- Answer of `VIDIOC_ENUM_FRAMESIZES`; `width`, `height` are `discrete.width/height`. -/
structure v4l2_frmsizeenum where
  type : Nat
  width : Nat
  height : Nat
deriving DecidableEq, Repr

/-- Answer of `VIDIOC_ENUM_FRAMEINTERVALS`; the fraction is `discrete`. -/
structure v4l2_frmivalenum where
  type : Nat
  numerator : Nat
  denominator : Nat
deriving DecidableEq, Repr

/-! ## utils.hpp -/

def check_for_flag (payload flag : Nat) : Bool :=
  if (payload &&& flag) = 0 then false else true

def fmt_is_uncompressed (desc : v4l2_fmtdesc) : Bool :=
  !check_for_flag desc.flags V4L2_FMT_FLAG_COMPRESSED

def frm_is_discrete (res : v4l2_frmsizeenum) : Bool :=
  res.type == V4L2_FRMSIZE_TYPE_DISCRETE

def frm_ival_is_discrete (ival : v4l2_frmivalenum) : Bool :=
  ival.type == V4L2_FRMIVAL_TYPE_DISCRETE

/-- The operations on `double` whose result the sources do not fix: the `<cmath>` functions
`std::log` and `std::sqrt`, the conversion `static_cast<double>` of an `int`, the product
and the sum of two doubles, and the quotient `static_cast<double>(denominator) / numerator`
of two `__u32`.  They are parameters of the embedding; nothing is assumed of them except
where a statement says so. -/
structure Libm (F : Type) where
  log : F → F
  sqrt : F → F
  ofInt : Int → F
  mul : F → F → F
  add : F → F → F
  quot : Nat → Nat → F

/-- `fmt_score(fps, w, h, alpha = 1.5, beta = 1.5)`; `⊥` is `-INFINITY`.  Of the type `F`
of doubles only the comparison `<=`, the value `0` and the literal `1.5` are used. -/
def fmt_score {F : Type} [LE F] [Zero F] [OfScientific F] [∀ a b : F, Decidable (a ≤ b)]
    (m : Libm F) (fps : F) (w h : Int) (alpha : F := 1.5) (beta : F := 1.5) : WithBot F :=
  if fps ≤ 0 ∨ w ≤ 0 ∨ h ≤ 0 then ⊥
  else
    let lin := m.sqrt (m.mul (m.ofInt w) (m.ofInt h))
    ((m.add (m.mul alpha (m.log lin)) (m.mul beta (m.log fps)) : F) : WithBot F)

/-! ## The kernel double -/

/-- The enumeration side of the kernel double.  Control `VIDIOC_ENUM_FMT` with index `idx`
answers `fmts[idx]?`, `VIDIOC_ENUM_FRAMESIZES` for pixel format `p` answers
`(framesizes p)[idx]?` and `VIDIOC_ENUM_FRAMEINTERVALS` for `p`, `w`, `h` answers
`(frameintervals p w h)[idx]?`; `none` is the return value `-1`.  The loops leave on
`EINVAL` and on any other error alike, so a device that fails at index `i` is the device
whose list ends at `i`. -/
structure Device where
  fmts : List v4l2_fmtdesc
  framesizes : Nat → List v4l2_frmsizeenum
  frameintervals : Nat → Nat → Nat → List v4l2_frmivalenum

/-! ### The control side -/

/-- What a throwing C++ path reports (the `what()` of the exception, as a tag). -/
inductive Err
  | open_failed
  | querycap
  | no_streaming
  | no_ext_pix_format
  | s_fmt
  | reqbufs
  | querybuf (i : Nat)
  | mmap (i : Nat)
  | qbuf (index : Nat)
  | streamon
  | streamoff
  | buffer_out_of_range
  | format_out_of_range
  | no_format_set
  | dequeue_failed
deriving DecidableEq, Repr

/-- The `ioctl` requests of the sources other than the three enumerations. -/
inductive Req
  | QUERYCAP
  | S_FMT (pixelformat width height : Nat)
  | REQBUFS (count : Nat)
  | QUERYBUF (index : Nat)
  | QBUF (index : Nat)
  | DQBUF
  | STREAMON
  | STREAMOFF
deriving DecidableEq, Repr

/-- One system call issued by the sources. -/
inductive Call
  | open_ (path : String)
  | close (fd : Int)
  | ioctl (fd : Int) (req : Req)
  | mmap (fd : Int) (length offset : Nat)
  | munmap (addr length : Nat)
deriving DecidableEq, Repr

/-- Answer of the kernel double to a call: `fail` is the return value `-1` (`MAP_FAILED` for
`mmap`); `ok a b` carries what the kernel wrote back: the descriptor for `open_`, the
device capabilities for `QUERYCAP`, the granted count for `REQBUFS`, length and offset for
`QUERYBUF`, the address for `mmap`, the slot index for `DQBUF`. -/
inductive Resp
  | fail
  | ok (a b : Nat)
deriving DecidableEq, Repr

/-- A kernel double: the answer to the call at the head of the history, given the whole
history (latest call first). -/
abbrev Kernel := List Call → Resp

/-- A value read from a `__u32` field. -/
def u32 (n : Nat) : Nat := n % 2 ^ 32

/-- Conversion of a 32-bit unsigned value to `int`. -/
def toInt32 (n : Nat) : Int :=
  if n % 2 ^ 32 < 2 ^ 31 then ((n % 2 ^ 32 : Nat) : Int) else ((n % 2 ^ 32 : Nat) : Int) - 2 ^ 32

/-- Conversion of an `int` to `size_t`. -/
def toSizeT (i : Int) : Nat := (i % 2 ^ 64).toNat

/-! ## v4l2.hpp -/

namespace v4l2

/-- The two capabilities the session requires (`card` and `bus_info` are only logged). -/
structure Capabilities where
  supports_streaming : Bool
  supports_ext_pix_format : Bool
deriving DecidableEq, Repr

structure FrameInterval (F : Type) where
  width : Nat
  height : Nat
  fps : F
deriving DecidableEq, Repr

structure Format (F : Type) where
  pixelformat : Nat
  description : String
  intervals : List (FrameInterval F)
deriving DecidableEq, Repr

/-- The loop of `enumerate_frame_intervals`, from index `idx` with `intervals` collected so
far; `none` when `fuel` iterations did not reach the end of the enumeration. -/
def enumerate_frame_intervals_loop {F : Type} (quot : Nat → Nat → F) (dev : Device)
    (pixelformat width height : Nat) :
    Nat → Nat → List (FrameInterval F) → Option (List (FrameInterval F))
  | 0, _, _ => none
  | fuel + 1, idx, intervals =>
    match (dev.frameintervals pixelformat width height)[idx]? with
    | none => some intervals
    | some ival =>
      if ival.type ≠ V4L2_FRMIVAL_TYPE_DISCRETE then
        enumerate_frame_intervals_loop quot dev pixelformat width height fuel (idx + 1)
          intervals
      else
        let fps : F := quot ival.denominator ival.numerator
        enumerate_frame_intervals_loop quot dev pixelformat width height fuel (idx + 1)
          (intervals ++ [{ width := width, height := height, fps := fps }])

/-- `v4l2::enumerate_frame_intervals`; `quot` is the double quotient
`static_cast<double>(denominator) / numerator`, whatever its value. -/
def enumerate_frame_intervals {F : Type} (quot : Nat → Nat → F) (dev : Device) (fuel : Nat)
    (pixelformat width height : Nat) : Option (List (FrameInterval F)) :=
  enumerate_frame_intervals_loop quot dev pixelformat width height fuel 0 []

/-- The loop of `enumerate_frame_sizes`. -/
def enumerate_frame_sizes_loop {F : Type} (quot : Nat → Nat → F) (dev : Device)
    (pixelformat : Nat) (fuel0 : Nat) :
    Nat → Nat → List (FrameInterval F) → Option (List (FrameInterval F))
  | 0, _, _ => none
  | fuel + 1, idx, all_intervals =>
    match (dev.framesizes pixelformat)[idx]? with
    | none => some all_intervals
    | some res =>
      if res.type ≠ V4L2_FRMSIZE_TYPE_DISCRETE then
        enumerate_frame_sizes_loop quot dev pixelformat fuel0 fuel (idx + 1) all_intervals
      else
        match enumerate_frame_intervals quot dev fuel0 pixelformat res.width res.height with
        | none => none
        | some intervals =>
          enumerate_frame_sizes_loop quot dev pixelformat fuel0 fuel (idx + 1)
            (all_intervals ++ intervals)

def enumerate_frame_sizes {F : Type} (quot : Nat → Nat → F) (dev : Device) (fuel : Nat)
    (pixelformat : Nat) : Option (List (FrameInterval F)) :=
  enumerate_frame_sizes_loop quot dev pixelformat fuel fuel 0 []

/-- The loop of `enumerate_formats`. -/
def enumerate_formats_loop {F : Type} (quot : Nat → Nat → F) (dev : Device) (fuel0 : Nat) :
    Nat → Nat → List (Format F) → Option (List (Format F))
  | 0, _, _ => none
  | fuel + 1, idx, formats =>
    match dev.fmts[idx]? with
    | none => some formats
    | some desc =>
      if !fmt_is_uncompressed desc then
        enumerate_formats_loop quot dev fuel0 fuel (idx + 1) formats
      else
        match enumerate_frame_sizes quot dev fuel0 desc.pixelformat with
        | none => none
        | some intervals =>
          let fmt : Format F :=
            { pixelformat := desc.pixelformat, description := desc.description,
              intervals := intervals }
          if !fmt.intervals.isEmpty then
            enumerate_formats_loop quot dev fuel0 fuel (idx + 1) (formats ++ [fmt])
          else
            enumerate_formats_loop quot dev fuel0 fuel (idx + 1) formats

/-- `v4l2::enumerate_formats(fd)`; every loop may run `fuel` iterations. -/
def enumerate_formats {F : Type} (quot : Nat → Nat → F) (dev : Device) (fuel : Nat) :
    Option (List (Format F)) :=
  enumerate_formats_loop quot dev fuel fuel 0 []

def query_capabilities (k : Kernel) (tr : List Call) (fd : Int) :
    Except Err Capabilities × List Call :=
  let tr1 := Call.ioctl fd .QUERYCAP :: tr
  match k tr1 with
  | .fail => (.error .querycap, tr1)
  | .ok device_caps _ =>
    (.ok { supports_streaming := check_for_flag (u32 device_caps) V4L2_CAP_STREAMING,
           supports_ext_pix_format :=
             check_for_flag (u32 device_caps) V4L2_CAP_EXT_PIX_FORMAT }, tr1)

def set_format (k : Kernel) (tr : List Call) (fd : Int) (pixelformat width height : Nat) :
    Except Err Unit × List Call :=
  let tr1 := Call.ioctl fd (.S_FMT pixelformat width height) :: tr
  match k tr1 with
  | .fail => (.error .s_fmt, tr1)
  | .ok _ _ => (.ok (), tr1)

end v4l2

open v4l2 (FrameInterval Format enumerate_frame_intervals_loop enumerate_frame_intervals
  enumerate_frame_sizes_loop enumerate_frame_sizes enumerate_formats_loop enumerate_formats)

/-! ## buffers.hpp -/

structure v4l2_buffer where
  index : Nat := 0
  length : Nat := 0
  offset : Nat := 0
deriving DecidableEq, Repr

/-- `CameraRingBuffer::Buffer`; `data = none` is `nullptr` (a successful `mmap` never
returns the null pointer). -/
structure Buffer where
  data : Option Nat := none
  length : Nat := 0
  v4l2_buf : v4l2_buffer := {}
deriving DecidableEq, Repr

/-- The members of `CameraRingBuffer` that change or are observed (`type_` and `memory_`
are constants of the object, `dequeue_buf_` is only the out-parameter of `DQBUF`). -/
structure CameraRingBuffer where
  fd_ : Int
  buffers_ : List Buffer
  initialized_ : Bool := false
  streaming_ : Bool := false
deriving DecidableEq, Repr

namespace CameraRingBuffer

/-- The constructor: `num_buffers` default-constructed slots, no kernel call. -/
def new (fd : Int) (num_buffers : Nat := 3) : CameraRingBuffer :=
  { fd_ := fd, buffers_ := List.replicate num_buffers ({} : Buffer) }

/-- `std::vector<Buffer>::resize`. -/
def resize (bufs : List Buffer) (n : Nat) : List Buffer :=
  bufs.take n ++ List.replicate (n - bufs.length) ({} : Buffer)

def request_buffers (k : Kernel) (tr : List Call) (r : CameraRingBuffer) (count : Nat) :
    Except Err Unit × List Call × CameraRingBuffer :=
  let tr1 := Call.ioctl r.fd_ (.REQBUFS (u32 count)) :: tr
  match k tr1 with
  | .fail => (.error .reqbufs, tr1, r)
  | .ok granted _ => (.ok (), tr1, { r with buffers_ := resize r.buffers_ (u32 granted) })

/-- The loop of `unmap_buffers`, `todo` iterations from index `i`. -/
def unmap_buffers_loop :
    Nat → Nat → List Call → CameraRingBuffer → List Call × CameraRingBuffer
  | 0, _, tr, r => (tr, r)
  | todo + 1, i, tr, r =>
    match r.buffers_[i]? with
    | none => (tr, r)
    | some b =>
      match b.data with
      | some addr =>
        unmap_buffers_loop todo (i + 1) (Call.munmap addr b.length :: tr)
          { r with buffers_ := r.buffers_.set i { b with data := none } }
      | none => unmap_buffers_loop todo (i + 1) tr r

def unmap_buffers (tr : List Call) (r : CameraRingBuffer) (count : Nat) :
    List Call × CameraRingBuffer :=
  unmap_buffers_loop count 0 tr r

/-- The loop of `map_buffers`, `todo` iterations from index `i`. -/
def map_buffers_loop (k : Kernel) :
    Nat → Nat → List Call → CameraRingBuffer →
      Except Err Unit × List Call × CameraRingBuffer
  | 0, _, tr, r => (.ok (), tr, r)
  | todo + 1, i, tr, r =>
    match r.buffers_[i]? with
    | none => (.ok (), tr, r)
    | some buf =>
      let tr1 := Call.ioctl r.fd_ (.QUERYBUF (u32 i)) :: tr
      match k tr1 with
      | .fail =>
        let buf1 : Buffer := { buf with v4l2_buf := { buf.v4l2_buf with index := u32 i } }
        let u := unmap_buffers tr1 { r with buffers_ := r.buffers_.set i buf1 } i
        (.error (.querybuf i), u.1, u.2)
      | .ok length offset =>
        let buf1 : Buffer :=
          { buf with
            v4l2_buf := { index := u32 i, length := u32 length, offset := u32 offset },
            length := u32 length }
        let tr2 := Call.mmap r.fd_ buf1.length buf1.v4l2_buf.offset :: tr1
        match k tr2 with
        | .fail =>
          let u := unmap_buffers tr2
            { r with buffers_ := r.buffers_.set i { buf1 with data := none } } i
          (.error (.mmap i), u.1, u.2)
        | .ok addr _ =>
          map_buffers_loop k todo (i + 1) tr2
            { r with buffers_ := r.buffers_.set i { buf1 with data := some addr } }

def map_buffers (k : Kernel) (tr : List Call) (r : CameraRingBuffer) :
    Except Err Unit × List Call × CameraRingBuffer :=
  map_buffers_loop k r.buffers_.length 0 tr r

def queue_buffer (k : Kernel) (tr : List Call) (r : CameraRingBuffer) (index : Nat) :
    Except Err Unit × List Call × CameraRingBuffer :=
  match r.buffers_[index]? with
  | none => (.error .buffer_out_of_range, tr, r)
  | some buf =>
    let tr1 := Call.ioctl r.fd_ (.QBUF buf.v4l2_buf.index) :: tr
    match k tr1 with
    | .fail => (.error (.qbuf index), tr1, r)
    | .ok _ _ => (.ok (), tr1, r)

def dequeue_buffer (k : Kernel) (tr : List Call) (r : CameraRingBuffer) :
    Int × List Call × CameraRingBuffer :=
  let tr1 := Call.ioctl r.fd_ .DQBUF :: tr
  match k tr1 with
  | .fail => (-1, tr1, r)
  | .ok index _ => (toInt32 (u32 index), tr1, r)

/-- The loop of `queue_all`, `todo` iterations from index `i`. -/
def queue_all_loop (k : Kernel) :
    Nat → Nat → List Call → CameraRingBuffer →
      Except Err Unit × List Call × CameraRingBuffer
  | 0, _, tr, r => (.ok (), tr, r)
  | todo + 1, i, tr, r =>
    match queue_buffer k tr r i with
    | (.error e, tr1, r1) => (.error e, tr1, r1)
    | (.ok _, tr1, r1) => queue_all_loop k todo (i + 1) tr1 r1

def queue_all (k : Kernel) (tr : List Call) (r : CameraRingBuffer) :
    Except Err Unit × List Call × CameraRingBuffer :=
  queue_all_loop k r.buffers_.length 0 tr r

/-- The private member function `CameraRingBuffer::initialize()`. -/
def initialize_ring (k : Kernel) (tr : List Call) (r : CameraRingBuffer) :
    Except Err Unit × List Call × CameraRingBuffer :=
  if r.initialized_ then (.ok (), tr, r)
  else
    match request_buffers k tr r r.buffers_.length with
    | (.error e, tr1, r1) => (.error e, tr1, r1)
    | (.ok _, tr1, r1) =>
      match map_buffers k tr1 r1 with
      | (.error e, tr2, r2) => (.error e, tr2, r2)
      | (.ok _, tr2, r2) => (.ok (), tr2, { r2 with initialized_ := true })

def start_streaming (k : Kernel) (tr : List Call) (r : CameraRingBuffer) :
    Except Err Unit × List Call × CameraRingBuffer :=
  if r.streaming_ then (.ok (), tr, r)
  else
    match initialize_ring k tr r with
    | (.error e, tr1, r1) => (.error e, tr1, r1)
    | (.ok _, tr1, r1) =>
      match queue_all k tr1 r1 with
      | (.error e, tr2, r2) => (.error e, tr2, r2)
      | (.ok _, tr2, r2) =>
        let tr3 := Call.ioctl r2.fd_ .STREAMON :: tr2
        match k tr3 with
        | .fail => (.error .streamon, tr3, r2)
        | .ok _ _ => (.ok (), tr3, { r2 with streaming_ := true })

def stop_streaming (k : Kernel) (tr : List Call) (r : CameraRingBuffer) :
    Except Err Unit × List Call × CameraRingBuffer :=
  if !r.streaming_ then (.ok (), tr, r)
  else
    let tr1 := Call.ioctl r.fd_ .STREAMOFF :: tr
    match k tr1 with
    | .fail => (.error .streamoff, tr1, r)
    | .ok _ _ => (.ok (), tr1, { r with streaming_ := false })

def is_streaming (r : CameraRingBuffer) : Bool := r.streaming_

def size (r : CameraRingBuffer) : Nat := r.buffers_.length

def buffer_start (r : CameraRingBuffer) (index : Nat) : Except Err (Option Nat) :=
  match r.buffers_[index]? with
  | none => .error .buffer_out_of_range
  | some buf => .ok buf.data

def buffer_length (r : CameraRingBuffer) (index : Nat) : Except Err Nat :=
  match r.buffers_[index]? with
  | none => .error .buffer_out_of_range
  | some buf => .ok buf.length

end CameraRingBuffer

/-! ## camera.hpp -/

structure CameraFMT (F : Type) where
  fps : F
  pixelformat : Nat
  width : Nat
  height : Nat
  description : String
deriving DecidableEq, Repr

structure Camera (F : Type) where
  fd_ : Int := -1
  formats_ : List (CameraFMT F) := []
  best_fmt_idx_ : Option Nat := none
  current_fmt_idx_ : Option Nat := none
  ring_ : CameraRingBuffer
  streaming_ : Bool := false

/-- What `capture_frame` hands to the tensor runtime: source address and byte count of the
slot, and the shape `(height, width, 2)`.  The allocation and the copy themselves belong to
the external runtime and are not modelled. -/
structure Frame where
  src : Option Nat
  size : Nat
  height : Nat
  width : Nat
deriving DecidableEq, Repr

namespace Camera

variable {F : Type} [LE F] [LT F] [Zero F] [OfScientific F] [∀ a b : F, Decidable (a ≤ b)]
  [∀ a b : F, Decidable (a < b)]

def open_device (k : Kernel) (tr : List Call) (path : String) : Except Err Int × List Call :=
  let tr1 := Call.open_ path :: tr
  match k tr1 with
  | .fail => (.error .open_failed, tr1)
  | .ok fd _ => (.ok (fd : Int), tr1)

def validate_capabilities (k : Kernel) (tr : List Call) (fd : Int) :
    Except Err Unit × List Call :=
  match v4l2.query_capabilities k tr fd with
  | (.error e, tr1) => (.error e, tr1)
  | (.ok caps, tr1) =>
    if !caps.supports_streaming then (.error .no_streaming, tr1)
    else if !caps.supports_ext_pix_format then (.error .no_ext_pix_format, tr1)
    else (.ok (), tr1)

/-- The body of the inner loop of `discover_formats`; the first component of the state is
the local `max_score`. -/
def discover_interval (m : Libm F) (v4l2_fmt : Format F) (st : WithBot F × Camera F)
    (interval : FrameInterval F) : WithBot F × Camera F :=
  let fmt : CameraFMT F :=
    { fps := interval.fps, pixelformat := v4l2_fmt.pixelformat, width := interval.width,
      height := interval.height, description := v4l2_fmt.description }
  let score := fmt_score m fmt.fps (toInt32 fmt.width) (toInt32 fmt.height)
  let st1 : WithBot F × Camera F :=
    if score > st.1 then (score, { st.2 with best_fmt_idx_ := some st.2.formats_.length })
    else st
  (st1.1, { st1.2 with formats_ := st1.2.formats_ ++ [fmt] })

/-- The two nested loops of `discover_formats` over the enumerated formats. -/
def discover_loop (m : Libm F) (fmts : List (Format F)) (c : Camera F) : Camera F :=
  (fmts.foldl (fun st v4l2_fmt => v4l2_fmt.intervals.foldl (discover_interval m v4l2_fmt) st)
    ((0 : WithBot F), c)).2

def discover_formats (m : Libm F) (dev : Device) (fuel : Nat) (c : Camera F) :
    Option (Camera F) :=
  match enumerate_formats m.quot dev fuel with
  | none => none
  | some fmts => some (discover_loop m fmts c)

def set_format (k : Kernel) (tr : List Call) (c : Camera F) (index : Nat) :
    Except Err Unit × List Call × Camera F :=
  match c.formats_[index]? with
  | none => (.error .format_out_of_range, tr, c)
  | some fmt =>
    match v4l2.set_format k tr c.fd_ fmt.pixelformat fmt.width fmt.height with
    | (.error e, tr1) => (.error e, tr1, c)
    | (.ok _, tr1) => (.ok (), tr1, { c with current_fmt_idx_ := some index })

/-- `width()`; the index stored by `set_format` is always in range, so the subscript
`formats_[*current_fmt_idx_]` of the source never leaves the vector and the second error
is never returned. -/
def width (c : Camera F) : Except Err Nat :=
  match c.current_fmt_idx_ with
  | none => .error .no_format_set
  | some idx =>
    match c.formats_[idx]? with
    | none => .error .format_out_of_range
    | some fmt => .ok fmt.width

/-- `height()`, see `width`. -/
def height (c : Camera F) : Except Err Nat :=
  match c.current_fmt_idx_ with
  | none => .error .no_format_set
  | some idx =>
    match c.formats_[idx]? with
    | none => .error .format_out_of_range
    | some fmt => .ok fmt.height

def is_streaming (c : Camera F) : Bool := c.streaming_

def start_streaming (k : Kernel) (tr : List Call) (c : Camera F) :
    Except Err Unit × List Call × Camera F :=
  if c.streaming_ then (.ok (), tr, c)
  else
    match c.ring_.start_streaming k tr with
    | (.error e, tr1, r1) => (.error e, tr1, { c with ring_ := r1 })
    | (.ok _, tr1, r1) => (.ok (), tr1, { c with ring_ := r1, streaming_ := true })

def stop_streaming (k : Kernel) (tr : List Call) (c : Camera F) :
    Except Err Unit × List Call × Camera F :=
  if !c.streaming_ then (.ok (), tr, c)
  else
    match c.ring_.stop_streaming k tr with
    | (.error e, tr1, r1) => (.error e, tr1, { c with ring_ := r1 })
    | (.ok _, tr1, r1) => (.ok (), tr1, { c with ring_ := r1, streaming_ := false })

def close_camera (k : Kernel) (tr : List Call) (c : Camera F) :
    Except Err Unit × List Call × Camera F :=
  match c.stop_streaming k tr with
  | (.error e, tr1, c1) => (.error e, tr1, c1)
  | (.ok _, tr1, c1) =>
    if c1.fd_ ≥ 0 then (.ok (), Call.close c1.fd_ :: tr1, { c1 with fd_ := -1 })
    else (.ok (), tr1, c1)

def capture_frame (c : Camera F) (buffer_idx : Int) : Except Err Frame :=
  match c.ring_.buffer_start (toSizeT buffer_idx) with
  | .error e => .error e
  | .ok src =>
    match c.ring_.buffer_length (toSizeT buffer_idx) with
    | .error e => .error e
    | .ok size =>
      match c.height with
      | .error e => .error e
      | .ok h =>
        match c.width with
        | .error e => .error e
        | .ok w => .ok { src := src, size := size, height := h, width := w }

def __next__ (k : Kernel) (tr : List Call) (c : Camera F) :
    Except Err Frame × List Call × Camera F :=
  match (if !c.is_streaming then c.start_streaming k tr else (.ok (), tr, c)) with
  | (.error e, tr1, c1) => (.error e, tr1, c1)
  | (.ok _, tr1, c1) =>
    match c1.ring_.dequeue_buffer k tr1 with
    | (idx, tr2, r2) =>
      if idx = -1 then (.error .dequeue_failed, tr2, { c1 with ring_ := r2 })
      else
        match capture_frame { c1 with ring_ := r2 } idx with
        | .error e => (.error e, tr2, { c1 with ring_ := r2 })
        | .ok frame =>
          match r2.queue_buffer k tr2 (toSizeT idx) with
          | (.error e, tr3, r3) => (.error e, tr3, { c1 with ring_ := r3 })
          | (.ok _, tr3, r3) => (.ok frame, tr3, { c1 with ring_ := r3 })

/-- The constructor `Camera(device)`; `none` when the enumeration ran out of `fuel`. -/
def new (m : Libm F) (dev : Device) (k : Kernel) (fuel : Nat) (tr : List Call)
    (device : String) : Option (Except Err (Camera F) × List Call) :=
  match open_device k tr device with
  | (.error e, tr1) => some (.error e, tr1)
  | (.ok fd, tr1) =>
    let c0 : Camera F := { fd_ := fd, ring_ := CameraRingBuffer.new fd }
    match validate_capabilities k tr1 fd with
    | (.error e, tr2) => some (.error e, tr2)
    | (.ok _, tr2) =>
      match discover_formats m dev fuel c0 with
      | none => none
      | some c1 =>
        match c1.best_fmt_idx_ with
        | none => some (.ok c1, tr2)
        | some best =>
          match set_format k tr2 c1 best with
          | (.error e, tr3, _) => some (.error e, tr3)
          | (.ok _, tr3, c2) => some (.ok c2, tr3)

end Camera

/-! ## Vocabulary of the statements -/

section Vocabulary

variable {F : Type} [LinearOrderedField F]

/-- The candidate `discover_formats` builds from a format and one of its intervals. -/
def candidate (v4l2_fmt : Format F) (interval : FrameInterval F) : CameraFMT F :=
  { fps := interval.fps, pixelformat := v4l2_fmt.pixelformat, width := interval.width,
    height := interval.height, description := v4l2_fmt.description }

/-- The candidates of a list of formats in enumeration order. -/
def candidates (fmts : List (Format F)) : List (CameraFMT F) :=
  fmts.flatMap (fun v4l2_fmt => v4l2_fmt.intervals.map (candidate v4l2_fmt))

/-- The score `discover_formats` gives a candidate. -/
def score (m : Libm F) (x : CameraFMT F) : WithBot F :=
  fmt_score m x.fps (toInt32 x.width) (toInt32 x.height)

/-- Index `i` holds the earliest candidate of `cands` whose score is the maximum. -/
def EarliestMax (m : Libm F) (cands : List (CameraFMT F)) (i : Nat) : Prop :=
  ∃ x, cands[i]? = some x ∧ (∀ y ∈ cands, score m y ≤ score m x) ∧
    ∀ j y, j < i → cands[j]? = some y → score m y < score m x

end Vocabulary

section DiscoveryVocabulary

variable {F : Type} [LinearOrderedField F]

/-- The loop invariant of `discover_formats` once the candidates `pre` are stored: either no
candidate scored above the initial `max_score = 0` and no index is set, or the index set is
that of the earliest maximum, whose score is `max_score`. -/
def DiscoverInv (m : Libm F) (pre : List (CameraFMT F)) (st : WithBot F × Camera F) : Prop :=
  st.2.formats_ = pre ∧
    ((st.2.best_fmt_idx_ = none ∧ st.1 = 0 ∧ ∀ y ∈ pre, score m y ≤ 0) ∨
     (∃ i x, st.2.best_fmt_idx_ = some i ∧ 0 < st.1 ∧ pre[i]? = some x ∧ st.1 = score m x ∧
        (∀ y ∈ pre, score m y ≤ score m x) ∧
        ∀ j y, j < i → pre[j]? = some y → score m y < score m x))

end DiscoveryVocabulary

/-! ## Accuracy of the double operations, and the data of the examples -/

/-- The operations without rounding, an instance of `Accurate` with `ε = 0`.  It gives the
statements their examples; it is not the arithmetic of the sources, whose results differ
from it in the last places.  Its `quot` is the exact quotient where the numerator is not
`0`; no statement uses it. -/
noncomputable def realLibm : Libm ℝ :=
  { log := Real.log, sqrt := Real.sqrt, ofInt := fun n => (n : ℝ), mul := fun x y => x * y,
    add := fun x y => x + y, quot := fun d n => (d : ℝ) / (n : ℝ) }

/-- A session as the constructor leaves it before `discover_formats`, on descriptor `3`. -/
def freshCamera (F : Type) : Camera F := { fd_ := 3, ring_ := CameraRingBuffer.new 3 }

/-- The formats of the two-format scenario: 640x480 at 30 fps, then 320x240 at 60 fps. -/
def scenarioFormats : List (Format ℝ) :=
  [{ pixelformat := 1448695129, description := "YUYV",
     intervals := [{ width := 640, height := 480, fps := 30 }] },
   { pixelformat := 1498831189, description := "UYVY",
     intervals := [{ width := 320, height := 240, fps := 60 }] }]

/-- One format whose only interval has denominator `0`, that is `fps = 0`. -/
def zeroRateFormats : List (Format ℝ) :=
  [{ pixelformat := 1448695129, description := "YUYV",
     intervals := [{ width := 640, height := 480, fps := 0 }] }]

/-- One format with the single candidate 1x1 at 1 fps, whose score is exactly `0`. -/
def unitFormats : List (Format ℝ) :=
  [{ pixelformat := 1448695129, description := "YUYV",
     intervals := [{ width := 1, height := 1, fps := 1 }] }]

/-! ## Vocabulary of the ring and session statements -/

/-- Number of `VIDIOC_DQBUF` calls in a history. -/
def dequeueCount : List Call → Nat
  | [] => 0
  | Call.ioctl _ Req.DQBUF :: tr => dequeueCount tr + 1
  | _ :: tr => dequeueCount tr

/-- The regions `(address, length)` of the successful `mmap` calls of a history, oldest
first. -/
def mapsOf (k : Kernel) : List Call → List (Nat × Nat)
  | [] => []
  | Call.mmap fd length offset :: tr =>
    match k (Call.mmap fd length offset :: tr) with
    | .ok addr _ => mapsOf k tr ++ [(addr, length)]
    | .fail => mapsOf k tr
  | _ :: tr => mapsOf k tr

/-- The regions `(address, length)` of the `munmap` calls of a history, oldest first. -/
def unmapsOf : List Call → List (Nat × Nat)
  | [] => []
  | Call.munmap addr length :: tr => unmapsOf tr ++ [(addr, length)]
  | _ :: tr => unmapsOf tr

/-- The regions held by the slots below index `n`, in slot order. -/
def mappedList (bufs : List Buffer) (n : Nat) : List (Nat × Nat) :=
  (bufs.take n).filterMap (fun b => b.data.map (fun addr => (addr, b.length)))

/-- What holds of the ring of every session: an uninitialized ring holds no mapping; in an
initialized ring slot `i` carries kernel index `i` and the slot count fits 32 bits; a
streaming ring is initialized. -/
structure RingInv (r : CameraRingBuffer) : Prop where
  unmapped : r.initialized_ = false → ∀ b ∈ r.buffers_, b.data = none
  index : r.initialized_ = true →
    ∀ (i : Nat) (b : Buffer), r.buffers_[i]? = some b → b.v4l2_buf.index = i
  count : r.initialized_ = true → r.buffers_.length < 2 ^ 32
  streaming : r.streaming_ = true → r.initialized_ = true

/-- What holds of every session: the ring invariant, and the two streaming flags agree. -/
structure SessionInv {F : Type} (c : Camera F) : Prop where
  ring : RingInv c.ring_
  flags : c.streaming_ = c.ring_.streaming_

/-- The session after `n` consecutive successful frame pulls, with the history; `none` when
one of them throws. -/
def pulls {F : Type} (k : Kernel) :
    Nat → List Call → Camera F → Option (List Call × Camera F)
  | 0, tr, c => some (tr, c)
  | n + 1, tr, c =>
    match c.__next__ k tr with
    | (.ok _, tr1, c1) => pulls k n tr1 c1
    | (.error _, _, _) => none

/-- `PullPairs k n tr tr1`: the history `tr1` extends `tr` by `n` dequeue-requeue pairs.  A
pair is a `DQBUF` the kernel answered with slot `a`, directly followed by an accepted
`QBUF` of slot `a`; before a pair only calls other than `DQBUF` stand (those of a lazy
start). -/
inductive PullPairs (k : Kernel) : Nat → List Call → List Call → Prop
  | zero (tr : List Call) : PullPairs k 0 tr tr
  | succ (n : Nat) (tr tr1 pre : List Call) (fd : Int) (a b a1 b1 : Nat) :
      PullPairs k n tr tr1 → dequeueCount pre = 0 →
      k (Call.ioctl fd .DQBUF :: (pre ++ tr1)) = .ok a b →
      k (Call.ioctl fd (.QBUF (u32 a)) :: Call.ioctl fd .DQBUF :: (pre ++ tr1)) = .ok a1 b1 →
      PullPairs k (n + 1) tr
        (Call.ioctl fd (.QBUF (u32 a)) :: Call.ioctl fd .DQBUF :: (pre ++ tr1))

/-- History `tr1` extends `tr` by calls none of which is a `DQBUF`. -/
def Quiet (tr tr1 : List Call) : Prop := ∃ pre, tr1 = pre ++ tr ∧ dequeueCount pre = 0

/-- A kernel double that accepts every call except the second `mmap`: `REQBUFS` grants the
requested count, `QUERYBUF` of slot `i` reports 614400 bytes at offset `614400 * i`, and an
accepted `mmap` returns the address `4096 + offset`. -/
def secondMmapFails : Kernel
  | Call.mmap _ _ offset :: rest =>
    if (rest.filter (fun c => match c with | Call.mmap _ _ _ => true | _ => false)).length = 1
    then .fail else .ok (4096 + offset) 0
  | Call.ioctl _ (Req.REQBUFS count) :: _ => .ok count 0
  | Call.ioctl _ (Req.QUERYBUF index) :: _ => .ok 614400 (614400 * index)
  | _ => .ok 0 0

/-- The history of a first `initialize()` of a three-slot ring on descriptor `3` against
`secondMmapFails`, latest call first. -/
def failedInitTrace : List Call :=
  [Call.munmap 4096 614400,
   Call.mmap 3 614400 614400, Call.ioctl 3 (Req.QUERYBUF 1),
   Call.mmap 3 614400 0, Call.ioctl 3 (Req.QUERYBUF 0),
   Call.ioctl 3 (Req.REQBUFS 3)]

/-- The ring that failed `initialize()` leaves behind. -/
def failedInitRing : CameraRingBuffer :=
  { fd_ := 3,
    buffers_ :=
      [{ data := none, length := 614400,
         v4l2_buf := { index := 0, length := 614400, offset := 0 } },
       { data := none, length := 614400,
         v4l2_buf := { index := 1, length := 614400, offset := 614400 } },
       {}] }

/-- A kernel double that accepts every call: `REQBUFS` grants the requested count,
`QUERYBUF` of slot `i` reports 614400 bytes at offset `614400 * i`, `mmap` returns the
address `4096 + offset`, and the `n`-th `DQBUF` hands out slot `n mod 3`. -/
def acceptAll : Kernel
  | Call.mmap _ _ offset :: _ => .ok (4096 + offset) 0
  | Call.ioctl _ (Req.REQBUFS count) :: _ => .ok count 0
  | Call.ioctl _ (Req.QUERYBUF index) :: _ => .ok 614400 (614400 * index)
  | Call.ioctl _ Req.DQBUF :: rest => .ok (dequeueCount rest % 3) 0
  | _ => .ok 0 0

/-- A session on descriptor `3` with the single candidate 640x480 at 30 fps selected, as
the constructor leaves it. -/
def selectedCamera : Camera ℚ :=
  { fd_ := 3,
    formats_ := [{ fps := 30, pixelformat := 1448695129, width := 640, height := 480,
                   description := "YUYV" }],
    best_fmt_idx_ := some 0, current_fmt_idx_ := some 0,
    ring_ := CameraRingBuffer.new 3 }

/-- The three slots of the ring of `selectedCamera` once mapped by `acceptAll`. -/
def mappedSlots : List Buffer :=
  [{ data := some 4096, length := 614400,
     v4l2_buf := { index := 0, length := 614400, offset := 0 } },
   { data := some 618496, length := 614400,
     v4l2_buf := { index := 1, length := 614400, offset := 614400 } },
   { data := some 1232896, length := 614400,
     v4l2_buf := { index := 2, length := 614400, offset := 1228800 } }]

/-- The history of a first successful `start_streaming()` of `selectedCamera` against
`acceptAll`, latest call first. -/
def startTrace : List Call :=
  [Call.ioctl 3 Req.STREAMON,
   Call.ioctl 3 (Req.QBUF 2), Call.ioctl 3 (Req.QBUF 1), Call.ioctl 3 (Req.QBUF 0),
   Call.mmap 3 614400 1228800, Call.ioctl 3 (Req.QUERYBUF 2),
   Call.mmap 3 614400 614400, Call.ioctl 3 (Req.QUERYBUF 1),
   Call.mmap 3 614400 0, Call.ioctl 3 (Req.QUERYBUF 0),
   Call.ioctl 3 (Req.REQBUFS 3)]

/-- The history of two frame pulls of `selectedCamera` against `acceptAll`. -/
def twoPullsTrace : List Call :=
  [Call.ioctl 3 (Req.QBUF 1), Call.ioctl 3 Req.DQBUF,
   Call.ioctl 3 (Req.QBUF 0), Call.ioctl 3 Req.DQBUF] ++ startTrace

/-- The session `selectedCamera` while streaming. -/
def streamingCamera : Camera ℚ :=
  { selectedCamera with
    ring_ := { fd_ := 3, buffers_ := mappedSlots, initialized_ := true, streaming_ := true },
    streaming_ := true }

section EnumerationVocabulary

variable {F : Type}

/-- The device reports the format as compressed: bit `0x0001` of its `flags` is set. -/
def ReportedCompressed (desc : v4l2_fmtdesc) : Prop := desc.flags % 2 = 1

/-- The device reports the resolution as discrete: its `type` is `1`. -/
def ReportedDiscreteSize (res : v4l2_frmsizeenum) : Prop := res.type = 1

/-- The device reports the frame interval as discrete: its `type` is `1`. -/
def ReportedDiscreteInterval (ival : v4l2_frmivalenum) : Prop := ival.type = 1

instance (desc : v4l2_fmtdesc) : Decidable (ReportedCompressed desc) := by
  unfold ReportedCompressed
  exact inferInstance

instance (res : v4l2_frmsizeenum) : Decidable (ReportedDiscreteSize res) := by
  unfold ReportedDiscreteSize
  exact inferInstance

instance (ival : v4l2_frmivalenum) : Decidable (ReportedDiscreteInterval ival) := by
  unfold ReportedDiscreteInterval
  exact inferInstance

/-- The candidate of a triple of the device; `quot` is the double quotient. -/
def tripleCandidate (quot : Nat → Nat → F) (desc : v4l2_fmtdesc) (res : v4l2_frmsizeenum)
    (ival : v4l2_frmivalenum) : CameraFMT F :=
  { fps := quot ival.denominator ival.numerator, pixelformat := desc.pixelformat,
    width := res.width, height := res.height, description := desc.description }

/-- One candidate per triple of the device made of a format not reported compressed, one of
its resolutions reported discrete and one of that resolution's intervals reported discrete,
in enumeration order.  It is written on the answers of the device alone. -/
def expectedCandidates (quot : Nat → Nat → F) (dev : Device) : List (CameraFMT F) :=
  (dev.fmts.filter (fun desc => decide (¬ ReportedCompressed desc))).flatMap fun desc =>
    ((dev.framesizes desc.pixelformat).filter
        (fun res => decide (ReportedDiscreteSize res))).flatMap
      fun res =>
        ((dev.frameintervals desc.pixelformat res.width res.height).filter
            (fun ival => decide (ReportedDiscreteInterval ival))).map
          fun ival => tripleCandidate quot desc res ival

end EnumerationVocabulary

/-- A device with an uncompressed format `YUYV` and a compressed format `MJPG`.  `YUYV` has
the discrete resolution 640x480 and a stepwise one; 640x480 has the discrete intervals
1/30 and 1/15 with a continuous one between them, and a discrete interval 0/30 whose
numerator is `0`.  `MJPG` reports a discrete 1280x720 at 1/60. -/
def mixedDevice : Device :=
  { fmts := [{ flags := 0, pixelformat := 1448695129, description := "YUYV" },
             { flags := 1, pixelformat := 1196444237, description := "MJPG" }],
    framesizes := fun p =>
      if p = 1448695129 then
        [{ type := 1, width := 640, height := 480 }, { type := 3, width := 160, height := 120 }]
      else if p = 1196444237 then [{ type := 1, width := 1280, height := 720 }]
      else [],
    frameintervals := fun p w h =>
      if p = 1448695129 ∧ w = 640 ∧ h = 480 then
        [{ type := 1, numerator := 1, denominator := 30 },
         { type := 2, numerator := 1, denominator := 60 },
         { type := 1, numerator := 1, denominator := 15 },
         { type := 1, numerator := 0, denominator := 30 }]
      else if p = 1196444237 then [{ type := 1, numerator := 1, denominator := 60 }]
      else [] }

/-! ## Vocabulary of the statements about `close()` -/

/-- The slots queued with the kernel after a history: an accepted `QBUF` queues its slot, an
answered `DQBUF` hands the slot out, an accepted `STREAMOFF` or `REQBUFS` empties the
queue. -/
def queuedSlots (k : Kernel) : List Call → List Nat
  | [] => []
  | Call.ioctl fd (Req.QBUF i) :: tr =>
    match k (Call.ioctl fd (Req.QBUF i) :: tr) with
    | .ok _ _ => i :: queuedSlots k tr
    | .fail => queuedSlots k tr
  | Call.ioctl fd Req.DQBUF :: tr =>
    match k (Call.ioctl fd Req.DQBUF :: tr) with
    | .ok a _ => (queuedSlots k tr).erase (u32 a)
    | .fail => queuedSlots k tr
  | Call.ioctl fd Req.STREAMOFF :: tr =>
    match k (Call.ioctl fd Req.STREAMOFF :: tr) with
    | .ok _ _ => []
    | .fail => queuedSlots k tr
  | Call.ioctl fd (Req.REQBUFS n) :: tr =>
    match k (Call.ioctl fd (Req.REQBUFS n) :: tr) with
    | .ok _ _ => []
    | .fail => queuedSlots k tr
  | _ :: tr => queuedSlots k tr

/-- Whether somewhere in the history a `QBUF` was issued for a slot that was queued with the
kernel at that moment. -/
def submitsQueued (k : Kernel) : List Call → Bool
  | [] => false
  | Call.ioctl _ (Req.QBUF i) :: tr =>
    submitsQueued k tr || decide (i ∈ queuedSlots k tr)
  | _ :: tr => submitsQueued k tr

/-- The kernel double `acceptAll`, except that it rejects the first `STREAMON`. -/
def firstStreamonFails : Kernel
  | Call.ioctl _ Req.STREAMON :: rest =>
    if rest.any (fun c => match c with | Call.ioctl _ Req.STREAMON => true | _ => false)
    then .ok 0 0 else .fail
  | tr => acceptAll tr

/-- The session `selectedCamera` after a `start_streaming()` whose `STREAMON` was
rejected: the ring is initialized and mapped, and nothing is streaming. -/
def stalledCamera : Camera ℚ :=
  { selectedCamera with
    ring_ := { fd_ := 3, buffers_ := mappedSlots, initialized_ := true, streaming_ := false } }

/-- The history of the retried `start_streaming()` of `stalledCamera`: the three slots are
submitted once more, then `STREAMON`. -/
def retriedStartTrace : List Call :=
  [Call.ioctl 3 Req.STREAMON,
   Call.ioctl 3 (Req.QBUF 2), Call.ioctl 3 (Req.QBUF 1), Call.ioctl 3 (Req.QBUF 0)] ++ startTrace

/-- The operations of a session. -/
inductive Op
  | set_format (index : Nat)
  | start_streaming
  | stop_streaming
  | next
  | close
deriving DecidableEq, Repr

/-- History and session after one operation, whether it returned or threw. -/
def runOp {F : Type} (k : Kernel) (tr : List Call) (c : Camera F) : Op → List Call × Camera F
  | .set_format index => (c.set_format k tr index).2
  | .start_streaming => (c.start_streaming k tr).2
  | .stop_streaming => (c.stop_streaming k tr).2
  | .next => (c.__next__ k tr).2
  | .close => (c.close_camera k tr).2

/-- History and session after a sequence of operations. -/
def runOps {F : Type} (k : Kernel) : List Op → List Call × Camera F → List Call × Camera F
  | [], s => s
  | op :: ops, s => runOps k ops (runOp k s.1 s.2 op)

/-! ## Theorems -/

/-! ### Format discovery: the default selection (C1) -/

section Discovery

variable {F : Type} [LinearOrderedField F]

theorem discover_interval_inv (m : Libm F) (f : Format F) (iv : FrameInterval F)
    (pre : List (CameraFMT F)) (st : WithBot F × Camera F) (h : DiscoverInv m pre st) :
    DiscoverInv m (pre ++ [candidate f iv]) (Camera.discover_interval m f st iv) := by
  obtain ⟨hf, h⟩ := h
  have hsc : fmt_score m (candidate f iv).fps (toInt32 (candidate f iv).width)
      (toInt32 (candidate f iv).height) = score m (candidate f iv) := rfl
  unfold Camera.discover_interval
  simp only []
  change DiscoverInv m (pre ++ [candidate f iv])
    ((if score m (candidate f iv) > st.1 then
        (score m (candidate f iv), { st.2 with best_fmt_idx_ := some st.2.formats_.length })
      else st).1,
     { (if score m (candidate f iv) > st.1 then
        (score m (candidate f iv), { st.2 with best_fmt_idx_ := some st.2.formats_.length })
      else st).2 with
       formats_ := (if score m (candidate f iv) > st.1 then
        (score m (candidate f iv), { st.2 with best_fmt_idx_ := some st.2.formats_.length })
      else st).2.formats_ ++ [candidate f iv] })
  set x := candidate f iv with hx
  by_cases hgt : score m x > st.1
  · simp only [hgt, if_true]
    refine ⟨by simp [hf], Or.inr ⟨pre.length, x, by simp [hf], ?_, by simp, rfl, ?_, ?_⟩⟩
    · rcases h with ⟨_, h0, _⟩ | ⟨i, y, _, hpos, _⟩
      · rw [h0] at hgt; exact hgt
      · exact lt_trans hpos hgt
    · intro y hy
      rcases List.mem_append.1 hy with hy | hy
      · rcases h with ⟨_, h0, hall⟩ | ⟨i, z, _, _, _, hz, hall, _⟩
        · exact le_trans (hall y hy) (by rw [h0] at hgt; exact le_of_lt hgt)
        · exact le_trans (hall y hy) (by rw [hz] at hgt; exact le_of_lt hgt)
      · simp at hy; rw [hy]
    · intro j y hj hjy
      have hjy2 : pre[j]? = some y := by
        simpa [List.getElem?_append_left hj] using hjy
      have hy : y ∈ pre := List.getElem?_mem hjy2
      rcases h with ⟨_, h0, hall⟩ | ⟨i, z, _, _, _, hz, hall, _⟩
      · exact lt_of_le_of_lt (hall y hy) (by rw [h0] at hgt; exact hgt)
      · exact lt_of_le_of_lt (hall y hy) (by rw [hz] at hgt; exact hgt)
  · simp only [hgt, if_false]
    have hle : score m x ≤ st.1 := not_lt.1 hgt
    refine ⟨by simp [hf], ?_⟩
    rcases h with ⟨hb, h0, hall⟩ | ⟨i, z, hb, hpos, hi, hz, hall, hearly⟩
    · refine Or.inl ⟨hb, h0, ?_⟩
      intro y hy
      rcases List.mem_append.1 hy with hy | hy
      · exact hall y hy
      · simp at hy; rw [hy, ← h0]; exact hle
    · refine Or.inr ⟨i, z, hb, hpos, ?_, hz, ?_, ?_⟩
      · have hil : i < pre.length := by
          by_contra hcon
          have := List.getElem?_eq_none_iff.2 (not_lt.1 hcon)
          rw [this] at hi; cases hi
        simpa [List.getElem?_append_left hil] using hi
      · intro y hy
        rcases List.mem_append.1 hy with hy | hy
        · exact hall y hy
        · simp at hy; rw [hy, ← hz]; exact hle
      · intro j y hj hjy
        have hil : i < pre.length := by
          by_contra hcon
          have := List.getElem?_eq_none_iff.2 (not_lt.1 hcon)
          rw [this] at hi; cases hi
        have hjl : j < pre.length := lt_trans hj hil
        exact hearly j y hj (by simpa [List.getElem?_append_left hjl] using hjy)


theorem discover_intervals_inv (m : Libm F) (f : Format F) (ivs : List (FrameInterval F))
    (pre : List (CameraFMT F)) (st : WithBot F × Camera F) (h : DiscoverInv m pre st) :
    DiscoverInv m (pre ++ ivs.map (candidate f)) (ivs.foldl (Camera.discover_interval m f) st) := by
  induction ivs generalizing pre st with
  | nil => simpa using h
  | cons iv ivs ih =>
    have := ih (pre ++ [candidate f iv]) _ (discover_interval_inv m f iv pre st h)
    simpa using this

theorem discover_fold_inv (m : Libm F) (fmts : List (Format F))
    (pre : List (CameraFMT F)) (st : WithBot F × Camera F) (h : DiscoverInv m pre st) :
    DiscoverInv m (pre ++ candidates fmts)
      (fmts.foldl (fun st v4l2_fmt =>
        v4l2_fmt.intervals.foldl (Camera.discover_interval m v4l2_fmt) st) st) := by
  induction fmts generalizing pre st with
  | nil => simpa [candidates] using h
  | cons f fs ih =>
    have := ih (pre ++ f.intervals.map (candidate f)) _ (discover_intervals_inv m f f.intervals pre st h)
    simpa [candidates] using this

/-- C1 (amended): when some candidate scores above `0`, `discover_formats` stores the
candidates in enumeration order and sets `best_fmt_idx_` to the index of the earliest
candidate whose score is the maximum over the whole list. -/
theorem discover_loop_selects_earliest_max (m : Libm F) (fmts : List (Format F))
    (c0 : Camera F) (hf : c0.formats_ = []) (hb : c0.best_fmt_idx_ = none)
    (hpos : ∃ x ∈ candidates fmts, 0 < score m x) :
    (Camera.discover_loop m fmts c0).formats_ = candidates fmts ∧
      ∃ i, (Camera.discover_loop m fmts c0).best_fmt_idx_ = some i ∧
        EarliestMax m (candidates fmts) i := by
  have h0 : DiscoverInv m [] ((0 : WithBot F), c0) :=
    ⟨hf, Or.inl ⟨hb, rfl, by simp⟩⟩
  have h := discover_fold_inv m fmts [] _ h0
  simp only [List.nil_append] at h
  obtain ⟨hfm, h⟩ := h
  refine ⟨hfm, ?_⟩
  rcases h with ⟨_, _, hall⟩ | ⟨i, x, hb, _, hi, _, hall, hearly⟩
  · obtain ⟨x, hx, hxpos⟩ := hpos
    exact absurd (hall x hx) (not_le.2 hxpos)
  · exact ⟨i, hb, x, hi, hall, hearly⟩

end Discovery

section Score
variable {F : Type} [LinearOrderedField F]

theorem fmt_score_of_pos (m : Libm F) (fps : F) (w h : Int) (hf : 0 < fps) (hw : 0 < w)
    (hh : 0 < h) :
    fmt_score m fps w h
      = ((m.add (m.mul 1.5 (m.log (m.sqrt (m.mul (m.ofInt w) (m.ofInt h)))))
          (m.mul 1.5 (m.log fps)) : F) : WithBot F) := by
  unfold fmt_score
  rw [if_neg]
  intro hcon
  rcases hcon with hcon | hcon | hcon
  · exact absurd hf (not_lt.2 hcon)
  · exact absurd hw (not_lt.2 hcon)
  · exact absurd hh (not_lt.2 hcon)

theorem fmt_score_of_nonpos (m : Libm F) (fps : F) (w h : Int) (hcon : fps ≤ 0 ∨ w ≤ 0 ∨ h ≤ 0) :
    fmt_score m fps w h = ⊥ := by
  unfold fmt_score
  rw [if_pos hcon]

theorem toInt32_of_lt (n : Nat) (hn : n < 2 ^ 31) : toInt32 n = (n : Int) := by
  unfold toInt32
  have h1 : n % 2 ^ 32 = n := Nat.mod_eq_of_lt (by omega)
  rw [h1, if_pos hn]

end Score

theorem scenario_first_score_pos :
    (0 : WithBot ℝ) < score realLibm
      { fps := 30, pixelformat := 1448695129, width := 640, height := 480,
        description := "YUYV" } := by
  unfold score
  rw [toInt32_of_lt 640 (by norm_num), toInt32_of_lt 480 (by norm_num),
    fmt_score_of_pos _ _ _ _ (by norm_num) (by norm_num) (by norm_num)]
  have h1 : (0 : ℝ) < Real.log 30 := Real.log_pos (by norm_num)
  have h2 : (1 : ℝ) < Real.sqrt (((640 : Nat) : Int) * ((480 : Nat) : Int)) := by
    rw [Real.lt_sqrt (by norm_num)]; norm_num
  have h3 : (0 : ℝ) < Real.log (Real.sqrt (((640 : Nat) : Int) * ((480 : Nat) : Int))) :=
    Real.log_pos h2
  have : (0 : ℝ) < 1.5 * Real.log
      (Real.sqrt ((((640 : Nat) : Int) : ℝ) * (((480 : Nat) : Int) : ℝ)))
      + 1.5 * Real.log 30 := by
    push_cast at h3 ⊢
    exact add_pos (mul_pos (by norm_num) h3) (mul_pos (by norm_num) h1)
  exact WithBot.coe_lt_coe.2 this

theorem discover_loop_selects_earliest_max_witness :
    (Camera.discover_loop realLibm scenarioFormats (freshCamera ℝ)).formats_
        = candidates scenarioFormats ∧
      ∃ i, (Camera.discover_loop realLibm scenarioFormats (freshCamera ℝ)).best_fmt_idx_ = some i ∧
        EarliestMax realLibm (candidates scenarioFormats) i :=
  discover_loop_selects_earliest_max realLibm scenarioFormats (freshCamera ℝ) rfl rfl
    ⟨_, by simp [candidates, scenarioFormats, candidate], scenario_first_score_pos⟩

/-- C1 (as stated) fails: a device whose only interval has denominator `0` yields a
non-empty candidate list, its candidate scores `-INFINITY`, and `best_fmt_idx_` stays
unset. -/
theorem discover_loop_leaves_best_unset :
    (Camera.discover_loop realLibm zeroRateFormats (freshCamera ℝ)).formats_ ≠ [] ∧
      (Camera.discover_loop realLibm zeroRateFormats (freshCamera ℝ)).best_fmt_idx_ = none := by
  simp [Camera.discover_loop, zeroRateFormats, Camera.discover_interval, fmt_score, freshCamera]

/-- The single valid candidate 1x1 at 1 fps scores exactly `0`, which is not above the
initial `max_score = 0`: `best_fmt_idx_` stays unset. -/
theorem discover_loop_zero_score_unset :
    (Camera.discover_loop realLibm unitFormats (freshCamera ℝ)).formats_ ≠ [] ∧
      (Camera.discover_loop realLibm unitFormats (freshCamera ℝ)).best_fmt_idx_ = none := by
  simp [Camera.discover_loop, unitFormats, Camera.discover_interval, fmt_score, freshCamera,
    toInt32, realLibm]
  norm_num

/-! ### `start_streaming` is idempotent (C4) -/

/-- C4: `start_streaming` on a ring that is already streaming issues no kernel call and
leaves the ring unchanged, on the ring and on the session alike; hence a second
`start_streaming` after a successful one changes neither the trace nor the state. -/
theorem start_streaming_idempotent {F : Type} (k : Kernel) (tr : List Call) :
    (∀ r : CameraRingBuffer, r.streaming_ = true →
        r.start_streaming k tr = (.ok (), tr, r)) ∧
    (∀ c : Camera F, c.streaming_ = true → c.start_streaming k tr = (.ok (), tr, c)) ∧
    (∀ (r r1 : CameraRingBuffer) (tr1 : List Call),
        r.start_streaming k tr = (.ok (), tr1, r1) →
        r1.start_streaming k tr1 = (.ok (), tr1, r1)) ∧
    (∀ (c c1 : Camera F) (tr1 : List Call),
        c.start_streaming k tr = (.ok (), tr1, c1) →
        c1.start_streaming k tr1 = (.ok (), tr1, c1)) := by
  have hring : ∀ (tr : List Call) (r : CameraRingBuffer), r.streaming_ = true →
      r.start_streaming k tr = (.ok (), tr, r) := by
    intro tr r h
    simp [CameraRingBuffer.start_streaming, h]
  have hcam : ∀ (tr : List Call) (c : Camera F), c.streaming_ = true →
      c.start_streaming k tr = (.ok (), tr, c) := by
    intro tr c h
    simp [Camera.start_streaming, h]
  refine ⟨hring tr, hcam tr, ?_, ?_⟩
  · intro r r1 tr1 h
    apply hring
    unfold CameraRingBuffer.start_streaming at h
    split at h
    · rename_i hs
      simp only [Prod.mk.injEq] at h
      obtain ⟨-, -, rfl⟩ := h
      exact hs
    · split at h
      · simp at h
      · split at h
        · simp at h
        · dsimp only at h
          split at h
          · simp at h
          · simp only [Prod.mk.injEq] at h
            obtain ⟨-, -, rfl⟩ := h
            rfl
  · intro c c1 tr1 h
    apply hcam
    unfold Camera.start_streaming at h
    split at h
    · rename_i hs
      simp only [Prod.mk.injEq] at h
      obtain ⟨-, -, rfl⟩ := h
      exact hs
    · split at h
      · simp at h
      · simp only [Prod.mk.injEq] at h
        obtain ⟨-, -, rfl⟩ := h
        rfl

theorem start_streaming_idempotent_witness :
    streamingCamera.ring_.start_streaming acceptAll twoPullsTrace
        = (.ok (), twoPullsTrace, streamingCamera.ring_) ∧
      streamingCamera.start_streaming acceptAll twoPullsTrace
        = (.ok (), twoPullsTrace, streamingCamera) :=
  ⟨(start_streaming_idempotent (F := ℚ) acceptAll twoPullsTrace).1 streamingCamera.ring_ rfl,
    (start_streaming_idempotent acceptAll twoPullsTrace).2.1 streamingCamera rfl⟩

/-! ### Ring: mapping and unmapping (C3) -/

namespace CameraRingBuffer

theorem mapsOf_munmap (k : Kernel) (addr length : Nat) (tr : List Call) :
    mapsOf k (Call.munmap addr length :: tr) = mapsOf k tr := rfl

theorem mapsOf_ioctl (k : Kernel) (fd : Int) (req : Req) (tr : List Call) :
    mapsOf k (Call.ioctl fd req :: tr) = mapsOf k tr := rfl

theorem unmapsOf_ioctl (fd : Int) (req : Req) (tr : List Call) :
    unmapsOf (Call.ioctl fd req :: tr) = unmapsOf tr := rfl

theorem unmapsOf_mmap (fd : Int) (a b : Nat) (tr : List Call) :
    unmapsOf (Call.mmap fd a b :: tr) = unmapsOf tr := rfl

theorem mappedList_zero (bufs : List Buffer) : mappedList bufs 0 = [] := by
  simp [mappedList]

theorem mappedList_nil (n : Nat) : mappedList [] n = [] := by
  simp [mappedList]

theorem mappedList_cons_succ (b : Buffer) (bufs : List Buffer) (n : Nat) :
    mappedList (b :: bufs) (n + 1)
      = (match b.data with | some addr => [(addr, b.length)] | none => []) ++ mappedList bufs n := by
  unfold mappedList
  rw [List.take_succ_cons, List.filterMap_cons]
  cases h : b.data <;> simp

/-- What `unmap_buffers` does: it clears the slots of the range, issues one `munmap` per
mapped slot of the range in slot order, and nothing else. -/
theorem unmap_buffers_loop_spec (k : Kernel) (todo : Nat) :
    ∀ (j : Nat) (tr : List Call) (r : CameraRingBuffer),
      (unmap_buffers_loop todo j tr r).2.fd_ = r.fd_ ∧
      (unmap_buffers_loop todo j tr r).2.initialized_ = r.initialized_ ∧
      (unmap_buffers_loop todo j tr r).2.streaming_ = r.streaming_ ∧
      (unmap_buffers_loop todo j tr r).2.buffers_.length = r.buffers_.length ∧
      (∀ idx, (unmap_buffers_loop todo j tr r).2.buffers_[idx]?
          = if j ≤ idx ∧ idx < j + todo then
              (r.buffers_[idx]?).map (fun b => { b with data := none })
            else r.buffers_[idx]?) ∧
      unmapsOf (unmap_buffers_loop todo j tr r).1
          = unmapsOf tr ++ mappedList (r.buffers_.drop j) todo ∧
      mapsOf k (unmap_buffers_loop todo j tr r).1 = mapsOf k tr := by
  induction todo with
  | zero =>
    intro j tr r
    refine ⟨rfl, rfl, rfl, rfl, ?_, ?_, rfl⟩
    · intro idx
      have : ¬ (j ≤ idx ∧ idx < j + 0) := by omega
      rw [if_neg this]
      rfl
    · simp [unmap_buffers_loop, mappedList_zero]
  | succ todo ih =>
    intro j tr r
    unfold unmap_buffers_loop
    cases hj : r.buffers_[j]? with
    | none =>
      have hlen : r.buffers_.length ≤ j := List.getElem?_eq_none_iff.1 hj
      refine ⟨rfl, rfl, rfl, rfl, ?_, ?_, rfl⟩
      · intro idx
        dsimp only
        split_ifs with hc
        · have : r.buffers_[idx]? = none := List.getElem?_eq_none_iff.2 (by omega)
          simp [this]
        · rfl
      · dsimp only
        rw [List.drop_eq_nil_of_le hlen, mappedList_nil, List.append_nil]
    | some b =>
      have hlt : j < r.buffers_.length := by
        by_contra hcon
        rw [List.getElem?_eq_none_iff.2 (not_lt.1 hcon)] at hj
        cases hj
      have hdrop : r.buffers_.drop j = b :: r.buffers_.drop (j + 1) := by
        rw [List.drop_eq_getElem_cons hlt]
        congr 1
        rw [List.getElem?_eq_getElem hlt] at hj
        exact Option.some.inj hj
      cases hd : b.data with
      | none =>
        dsimp only
        simp only [hd]
        obtain ⟨h1, h2, h3, h4, h5, h6, h7⟩ := ih (j + 1) tr r
        refine ⟨h1, h2, h3, h4, ?_, ?_, h7⟩
        · intro idx
          rw [h5 idx]
          by_cases hidx : idx = j
          · subst hidx
            have hb : ({ b with data := none } : Buffer) = b := by
              cases b; simp at hd; simp [hd]
            simp [hj, hb]
          · have : (j + 1 ≤ idx ∧ idx < j + 1 + todo) ↔ (j ≤ idx ∧ idx < j + (todo + 1)) := by
              omega
            simp only [this]
        · rw [h6, hdrop, mappedList_cons_succ, hd]
          simp
      | some addr =>
        dsimp only
        simp only [hd]
        obtain ⟨h1, h2, h3, h4, h5, h6, h7⟩ := ih (j + 1) (Call.munmap addr b.length :: tr)
          { r with buffers_ := r.buffers_.set j { b with data := none } }
        refine ⟨h1, h2, h3, ?_, ?_, ?_, ?_⟩
        · rw [h4]; simp
        · intro idx
          rw [h5 idx]
          by_cases hidx : idx = j
          · subst hidx
            have c1 : ¬ (idx + 1 ≤ idx ∧ idx < idx + 1 + todo) := by omega
            have c2 : (idx ≤ idx ∧ idx < idx + (todo + 1)) := by omega
            rw [if_neg c1, if_pos c2]
            simp [hj, List.getElem?_set_self hlt]
          · have : (j + 1 ≤ idx ∧ idx < j + 1 + todo) ↔ (j ≤ idx ∧ idx < j + (todo + 1)) := by
              omega
            have hne : j ≠ idx := fun h => hidx h.symm
            simp only [this, List.getElem?_set_ne hne]
        · rw [h6, hdrop, mappedList_cons_succ, hd]
          simp only [List.drop_set_of_lt _ _ (Nat.lt_succ_self j)]
          simp [unmapsOf]
        · rw [h7, mapsOf_munmap]


theorem dequeueCount_append (pre tr : List Call) :
    dequeueCount (pre ++ tr) = dequeueCount pre + dequeueCount tr := by
  induction pre with
  | nil => simp [dequeueCount]
  | cons c pre ih =>
    cases c with
    | ioctl fd req =>
      cases req
      case DQBUF => simp [dequeueCount, ih]; omega
      all_goals simp [dequeueCount, ih]
    | _ => simp [dequeueCount, ih]

theorem take_set_same (bufs : List Buffer) (i : Nat) (b : Buffer) :
    (bufs.set i b).take i = bufs.take i := by
  induction bufs generalizing i with
  | nil => simp
  | cons x xs ih =>
    cases i with
    | zero => simp
    | succ i => simp [ih]

theorem mappedList_set_same (bufs : List Buffer) (i : Nat) (b : Buffer) :
    mappedList (bufs.set i b) i = mappedList bufs i := by
  unfold mappedList
  rw [take_set_same]

theorem mappedList_set_succ (bufs : List Buffer) (i : Nat) (b : Buffer) (hi : i < bufs.length) :
    mappedList (bufs.set i b) (i + 1)
      = mappedList bufs i ++ (match b.data with | some addr => [(addr, b.length)] | none => []) := by
  unfold mappedList
  rw [List.take_succ, take_set_same, List.getElem?_set_self hi]
  cases h : b.data <;> simp [h]


/-- The members `map_buffers` never changes, whatever its outcome. -/
theorem map_buffers_loop_frame (k : Kernel) (todo : Nat) :
    ∀ (i : Nat) (tr : List Call) (r : CameraRingBuffer),
      (map_buffers_loop k todo i tr r).2.2.fd_ = r.fd_ ∧
      (map_buffers_loop k todo i tr r).2.2.initialized_ = r.initialized_ ∧
      (map_buffers_loop k todo i tr r).2.2.streaming_ = r.streaming_ ∧
      (map_buffers_loop k todo i tr r).2.2.buffers_.length = r.buffers_.length := by
  induction todo with
  | zero => intro i tr r; exact ⟨rfl, rfl, rfl, rfl⟩
  | succ todo ih =>
    intro i tr r
    unfold map_buffers_loop
    cases hi : r.buffers_[i]? with
    | none => exact ⟨rfl, rfl, rfl, rfl⟩
    | some buf =>
      dsimp only
      cases hq : k (Call.ioctl r.fd_ (Req.QUERYBUF (u32 i)) :: tr) with
      | fail =>
        dsimp only [unmap_buffers]
        refine ⟨(unmap_buffers_loop_spec k i 0 _ _).1, (unmap_buffers_loop_spec k i 0 _ _).2.1,
          (unmap_buffers_loop_spec k i 0 _ _).2.2.1,
          (unmap_buffers_loop_spec k i 0 _ _).2.2.2.1.trans ?_⟩
        simp
      | ok length offset =>
        dsimp only
        cases hm : k (Call.mmap r.fd_ (u32 length) (u32 offset) ::
            Call.ioctl r.fd_ (Req.QUERYBUF (u32 i)) :: tr) with
        | fail =>
          dsimp only [unmap_buffers]
          refine ⟨(unmap_buffers_loop_spec k i 0 _ _).1, (unmap_buffers_loop_spec k i 0 _ _).2.1,
            (unmap_buffers_loop_spec k i 0 _ _).2.2.1,
            (unmap_buffers_loop_spec k i 0 _ _).2.2.2.1.trans ?_⟩
          simp
        | ok addr x =>
          dsimp only
          refine ⟨(ih _ _ _).1, (ih _ _ _).2.1, (ih _ _ _).2.2.1, (ih _ _ _).2.2.2.trans ?_⟩
          simp

end CameraRingBuffer

namespace CameraRingBuffer

theorem quiet_refl (tr : List Call) : Quiet tr tr := ⟨[], rfl, rfl⟩

theorem quiet_trans {tr tr1 tr2 : List Call} (h1 : Quiet tr tr1) (h2 : Quiet tr1 tr2) :
    Quiet tr tr2 := by
  obtain ⟨p1, rfl, hp1⟩ := h1
  obtain ⟨p2, rfl, hp2⟩ := h2
  exact ⟨p2 ++ p1, by simp, by rw [dequeueCount_append, hp1, hp2]⟩

theorem quiet_cons {tr : List Call} (c : Call) (hc : dequeueCount [c] = 0) :
    Quiet tr (c :: tr) := ⟨[c], rfl, hc⟩

/-- A successful `map_buffers` stamps slot `idx` with kernel index `idx`, leaves the slots
below its start untouched and issues no `DQBUF`. -/
theorem map_buffers_loop_ok (k : Kernel) (todo : Nat) :
    ∀ (i : Nat) (tr tr1 : List Call) (r r1 : CameraRingBuffer),
      map_buffers_loop k todo i tr r = (.ok (), tr1, r1) →
      Quiet tr tr1 ∧
      ∀ (idx : Nat) (b : Buffer), r1.buffers_[idx]? = some b →
        (i ≤ idx → idx < i + todo → b.v4l2_buf.index = u32 idx) ∧
        (idx < i → r.buffers_[idx]? = some b) := by
  induction todo with
  | zero =>
    intro i tr tr1 r r1 h
    simp only [map_buffers_loop, Prod.mk.injEq] at h
    obtain ⟨-, rfl, rfl⟩ := h
    exact ⟨quiet_refl _, fun idx b hb => ⟨fun h1 h2 => by omega, fun _ => hb⟩⟩
  | succ todo ih =>
    intro i tr tr1 r r1 h
    unfold map_buffers_loop at h
    cases hi : r.buffers_[i]? with
    | none =>
      rw [hi] at h
      simp only [Prod.mk.injEq] at h
      obtain ⟨-, rfl, rfl⟩ := h
      refine ⟨quiet_refl _, fun idx b hb => ⟨fun h1 h2 => ?_, fun _ => hb⟩⟩
      have hlen := List.getElem?_eq_none_iff.1 hi
      have : r.buffers_[idx]? = none := List.getElem?_eq_none_iff.2 (by omega)
      rw [this] at hb; cases hb
    | some buf =>
      have hlt : i < r.buffers_.length := by
        by_contra hcon
        rw [List.getElem?_eq_none_iff.2 (not_lt.1 hcon)] at hi
        cases hi
      rw [hi] at h
      dsimp only at h
      cases hq : k (Call.ioctl r.fd_ (Req.QUERYBUF (u32 i)) :: tr) with
      | fail => rw [hq] at h; simp at h
      | ok length offset =>
        rw [hq] at h
        dsimp only at h
        cases hm : k (Call.mmap r.fd_ (u32 length) (u32 offset) ::
            Call.ioctl r.fd_ (Req.QUERYBUF (u32 i)) :: tr) with
        | fail => rw [hm] at h; simp at h
        | ok addr x =>
          rw [hm] at h
          dsimp only at h
          obtain ⟨hquiet, hidx⟩ := ih _ _ _ _ _ h
          refine ⟨?_, ?_⟩
          · exact quiet_trans (quiet_trans (quiet_cons (Call.ioctl _ (Req.QUERYBUF _)) rfl)
              (quiet_cons (Call.mmap _ _ _) rfl)) hquiet
          · intro idx b hb
            obtain ⟨h1, h2⟩ := hidx idx b hb
            refine ⟨?_, ?_⟩
            · intro hle hlt2
              by_cases he : idx = i
              · subst he
                have := h2 (Nat.lt_succ_self idx)
                simp only [List.getElem?_set_self hlt, Option.some.injEq] at this
                rw [← this]
              · exact h1 (by omega) (by omega)
            · intro hlt2
              have := h2 (by omega)
              have hne : i ≠ idx := by omega
              simpa only [List.getElem?_set_ne hne] using this


/-- After `unmap_buffers(n)` no slot is mapped, when no slot from `n` on was. -/
theorem unmap_buffers_all_none (k : Kernel) (tr : List Call) (r : CameraRingBuffer) (n : Nat)
    (h : ∀ (idx : Nat) (b : Buffer), n ≤ idx → r.buffers_[idx]? = some b → b.data = none) :
    ∀ b ∈ (unmap_buffers tr r n).2.buffers_, b.data = none := by
  intro b hb
  obtain ⟨idx, hidx⟩ := List.mem_iff_getElem?.1 hb
  have h5 := (unmap_buffers_loop_spec k n 0 tr r).2.2.2.2.1 idx
  unfold unmap_buffers at hidx
  rw [h5] at hidx
  split_ifs at hidx with hc
  · cases hr : r.buffers_[idx]? with
    | none => rw [hr] at hidx; cases hidx
    | some b0 =>
      rw [hr] at hidx
      simp only [Option.map_some', Option.some.injEq] at hidx
      rw [← hidx]
  · exact h idx b (by omega) hidx

theorem mapsOf_mmap_fail (k : Kernel) (fd : Int) (a b : Nat) (tr : List Call)
    (h : k (Call.mmap fd a b :: tr) = .fail) :
    mapsOf k (Call.mmap fd a b :: tr) = mapsOf k tr := by
  simp only [mapsOf, h]

theorem mapsOf_mmap_ok (k : Kernel) (fd : Int) (a b addr x : Nat) (tr : List Call)
    (h : k (Call.mmap fd a b :: tr) = .ok addr x) :
    mapsOf k (Call.mmap fd a b :: tr) = mapsOf k tr ++ [(addr, a)] := by
  simp only [mapsOf, h]

/-- A failing `map_buffers` fails at some slot `kk`, with no slot left mapped; the regions
it mapped are `Y`, and it unmapped what was mapped before it started and then `Y`. -/
theorem map_buffers_loop_error (k : Kernel) (todo : Nat) :
    ∀ (i : Nat) (tr tr1 : List Call) (r r1 : CameraRingBuffer) (e : Err),
      map_buffers_loop k todo i tr r = (.error e, tr1, r1) →
      (∀ (idx : Nat) (b : Buffer), i ≤ idx → r.buffers_[idx]? = some b → b.data = none) →
      ∃ (kk : Nat) (Y : List (Nat × Nat)), (e = .querybuf kk ∨ e = .mmap kk) ∧ i ≤ kk ∧
        kk < r.buffers_.length ∧ (∀ b ∈ r1.buffers_, b.data = none) ∧ Y.length = kk - i ∧
        mapsOf k tr1 = mapsOf k tr ++ Y ∧
        unmapsOf tr1 = unmapsOf tr ++ (mappedList r.buffers_ i ++ Y) := by
  induction todo with
  | zero =>
    intro i tr tr1 r r1 e h
    simp [map_buffers_loop] at h
  | succ todo ih =>
    intro i tr tr1 r r1 e h hpre
    unfold map_buffers_loop at h
    cases hi : r.buffers_[i]? with
    | none => rw [hi] at h; simp at h
    | some buf =>
      have hlt : i < r.buffers_.length := by
        by_contra hcon
        rw [List.getElem?_eq_none_iff.2 (not_lt.1 hcon)] at hi
        cases hi
      have hbuf : buf.data = none := hpre i buf (le_refl i) hi
      rw [hi] at h
      dsimp only at h
      cases hq : k (Call.ioctl r.fd_ (Req.QUERYBUF (u32 i)) :: tr) with
      | fail =>
        rw [hq] at h
        simp only [Prod.mk.injEq, Except.error.injEq] at h
        obtain ⟨rfl, rfl, rfl⟩ := h
        refine ⟨i, [], Or.inl rfl, le_refl i, hlt, ?_, by simp, ?_, ?_⟩
        · apply unmap_buffers_all_none k
          intro idx b hle hb
          dsimp only at hb
          by_cases he : idx = i
          · subst he
            simp only [List.getElem?_set_self hlt, Option.some.injEq] at hb
            rw [← hb]; exact hbuf
          · have hne : i ≠ idx := fun hh => he hh.symm
            rw [List.getElem?_set_ne hne] at hb
            exact hpre idx b hle hb
        · unfold unmap_buffers
          rw [(unmap_buffers_loop_spec k i 0 _ _).2.2.2.2.2.2, mapsOf_ioctl, List.append_nil]
        · unfold unmap_buffers
          rw [(unmap_buffers_loop_spec k i 0 _ _).2.2.2.2.2.1, unmapsOf_ioctl, List.append_nil]
          simp only [List.drop_zero]
          rw [mappedList_set_same]
      | ok length offset =>
        rw [hq] at h
        dsimp only at h
        cases hm : k (Call.mmap r.fd_ (u32 length) (u32 offset) ::
            Call.ioctl r.fd_ (Req.QUERYBUF (u32 i)) :: tr) with
        | fail =>
          rw [hm] at h
          simp only [Prod.mk.injEq, Except.error.injEq] at h
          obtain ⟨rfl, rfl, rfl⟩ := h
          refine ⟨i, [], Or.inr rfl, le_refl i, hlt, ?_, by simp, ?_, ?_⟩
          · apply unmap_buffers_all_none k
            intro idx b hle hb
            dsimp only at hb
            by_cases he : idx = i
            · subst he
              simp only [List.getElem?_set_self hlt, Option.some.injEq] at hb
              rw [← hb]
            · have hne : i ≠ idx := fun hh => he hh.symm
              rw [List.getElem?_set_ne hne] at hb
              exact hpre idx b hle hb
          · unfold unmap_buffers
            rw [(unmap_buffers_loop_spec k i 0 _ _).2.2.2.2.2.2, mapsOf_mmap_fail k _ _ _ _ hm,
              mapsOf_ioctl, List.append_nil]
          · unfold unmap_buffers
            rw [(unmap_buffers_loop_spec k i 0 _ _).2.2.2.2.2.1, unmapsOf_mmap, unmapsOf_ioctl,
              List.append_nil]
            simp only [List.drop_zero]
            rw [mappedList_set_same]
        | ok addr x =>
          rw [hm] at h
          dsimp only at h
          obtain ⟨kk, Y, he, hle, hkk, hnone, hY, hmaps, hunmaps⟩ := ih _ _ _ _ _ _ h (by
            intro idx b hle hb
            dsimp only at hb
            have hne : i ≠ idx := by omega
            rw [List.getElem?_set_ne hne] at hb
            exact hpre idx b (by omega) hb)
          refine ⟨kk, (addr, u32 length) :: Y, he, by omega, ?_, hnone, ?_, ?_, ?_⟩
          · simpa using hkk
          · simp only [List.length_cons, hY]; omega
          · rw [hmaps, mapsOf_mmap_ok k _ _ _ _ _ _ hm, mapsOf_ioctl]
            simp
          · rw [hunmaps, unmapsOf_mmap, unmapsOf_ioctl]
            dsimp only
            rw [mappedList_set_succ _ _ _ hlt]
            simp

end CameraRingBuffer

namespace CameraRingBuffer

theorem resize_all_none (bufs : List Buffer) (n : Nat) (h : ∀ b ∈ bufs, b.data = none) :
    ∀ b ∈ resize bufs n, b.data = none := by
  intro b hb
  unfold resize at hb
  rcases List.mem_append.1 hb with hb | hb
  · exact h b (List.mem_of_mem_take hb)
  · rw [(List.mem_replicate.1 hb).2]

theorem length_resize (bufs : List Buffer) (n : Nat) : (resize bufs n).length = n := by
  unfold resize
  simp only [List.length_append, List.length_take, List.length_replicate]
  omega

theorem u32_lt (n : Nat) : u32 n < 2 ^ 32 := Nat.mod_lt _ (by norm_num)

theorem u32_of_lt (n : Nat) (h : n < 2 ^ 32) : u32 n = n := Nat.mod_eq_of_lt h

end CameraRingBuffer

/-- C3: when ring initialization fails at buffer `kk`, at the layout query or at the
mapping, with `n` buffers granted, then `kk < n`, no slot of the ring holds a mapping, the
ring is still not initialized, and the regions unmapped during the call are exactly the
`kk` regions mapped during the call, each once and in slot order. -/
theorem initialize_failure_leaves_nothing_mapped (k : Kernel) (tr tr1 : List Call)
    (r r1 : CameraRingBuffer) (e : Err) (kk : Nat)
    (hinit : r.initialized_ = false) (hdata : ∀ b ∈ r.buffers_, b.data = none)
    (hrun : r.initialize_ring k tr = (.error e, tr1, r1))
    (hk : e = .querybuf kk ∨ e = .mmap kk) :
    (∃ n x, k (Call.ioctl r.fd_ (.REQBUFS (u32 r.buffers_.length)) :: tr) = .ok n x ∧
        r1.buffers_.length = u32 n ∧ kk < u32 n) ∧
      (∀ b ∈ r1.buffers_, b.data = none) ∧ r1.initialized_ = false ∧
      ∃ X : List (Nat × Nat), X.length = kk ∧ mapsOf k tr1 = mapsOf k tr ++ X ∧
        unmapsOf tr1 = unmapsOf tr ++ X := by
  unfold CameraRingBuffer.initialize_ring at hrun
  rw [hinit] at hrun
  simp only [Bool.false_eq_true, if_false] at hrun
  unfold CameraRingBuffer.request_buffers at hrun
  dsimp only at hrun
  cases hq : k (Call.ioctl r.fd_ (.REQBUFS (u32 r.buffers_.length)) :: tr) with
  | fail =>
    rw [hq] at hrun
    simp only [Prod.mk.injEq, Except.error.injEq] at hrun
    obtain ⟨rfl, -, -⟩ := hrun
    rcases hk with hk | hk <;> cases hk
  | ok n x =>
    rw [hq] at hrun
    dsimp only at hrun
    cases hm : CameraRingBuffer.map_buffers k
        (Call.ioctl r.fd_ (.REQBUFS (u32 r.buffers_.length)) :: tr)
        { r with buffers_ := CameraRingBuffer.resize r.buffers_ (u32 n) } with
    | mk res rest =>
      obtain ⟨tr2, r2⟩ := rest
      rw [hm] at hrun
      cases res with
      | ok u => simp at hrun
      | error e2 =>
        simp only [Prod.mk.injEq, Except.error.injEq] at hrun
        obtain ⟨rfl, rfl, rfl⟩ := hrun
        unfold CameraRingBuffer.map_buffers at hm
        have hframe := CameraRingBuffer.map_buffers_loop_frame k
          (CameraRingBuffer.resize r.buffers_ (u32 n)).length 0
          (Call.ioctl r.fd_ (.REQBUFS (u32 r.buffers_.length)) :: tr)
          { r with buffers_ := CameraRingBuffer.resize r.buffers_ (u32 n) }
        dsimp only at hm
        rw [hm] at hframe
        obtain ⟨-, hfi, -, hfl⟩ := hframe
        obtain ⟨kk2, Y, he, -, hkk, hnone, hY, hmaps, hunmaps⟩ :=
          CameraRingBuffer.map_buffers_loop_error k _ _ _ _ _ _ _ hm (by
            intro idx b _ hb
            exact CameraRingBuffer.resize_all_none _ _ hdata b (List.getElem?_mem hb))
        have hkk2 : kk2 = kk := by
          rcases hk with hk | hk <;> rcases he with he | he <;> rw [hk] at he <;>
            first
              | exact (Err.querybuf.inj he).symm
              | exact (Err.mmap.inj he).symm
              | cases he
        subst hkk2
        dsimp only at hfl hfi hkk
        rw [CameraRingBuffer.length_resize] at hfl hkk
        refine ⟨⟨n, x, rfl, hfl, hkk⟩, hnone, by rw [hfi, hinit], Y, by simpa using hY, ?_, ?_⟩
        · rw [hmaps]; rfl
        · rw [hunmaps, CameraRingBuffer.mappedList_zero]; rfl

theorem initialize_failure_leaves_nothing_mapped_witness :
    (CameraRingBuffer.new 3).initialize_ring secondMmapFails []
        = (.error (.mmap 1), failedInitTrace, failedInitRing) ∧
      (∃ n x, secondMmapFails
          (Call.ioctl (CameraRingBuffer.new 3).fd_
            (.REQBUFS (u32 (CameraRingBuffer.new 3).buffers_.length)) :: []) = .ok n x ∧
        failedInitRing.buffers_.length = u32 n ∧ 1 < u32 n) ∧
      (∀ b ∈ failedInitRing.buffers_, b.data = none) ∧ failedInitRing.initialized_ = false ∧
      ∃ X : List (Nat × Nat), X.length = 1 ∧
        mapsOf secondMmapFails failedInitTrace = mapsOf secondMmapFails [] ++ X ∧
        unmapsOf failedInitTrace = unmapsOf [] ++ X :=
  ⟨rfl,
    initialize_failure_leaves_nothing_mapped secondMmapFails [] failedInitTrace
      (CameraRingBuffer.new 3) failedInitRing (.mmap 1) 1 rfl (by decide) rfl
      (Or.inr rfl)⟩

/-! ### Ring and session: the frame pull (C2) -/

namespace CameraRingBuffer

/-- What `queue_buffer` does: the ring is unchanged; when it returns, the slot exists and
the one call issued is an accepted `QBUF` carrying the kernel index stored in the slot. -/
theorem queue_buffer_spec (k : Kernel) (tr tr1 : List Call) (r r1 : CameraRingBuffer)
    (index : Nat) (res : Except Err Unit) (h : r.queue_buffer k tr index = (res, tr1, r1)) :
    r1 = r ∧ (res = .ok () → ∃ buf a b, r.buffers_[index]? = some buf ∧
      tr1 = Call.ioctl r.fd_ (.QBUF buf.v4l2_buf.index) :: tr ∧ k tr1 = .ok a b) := by
  unfold queue_buffer at h
  cases hi : r.buffers_[index]? with
  | none =>
    rw [hi] at h
    simp only [Prod.mk.injEq] at h
    obtain ⟨rfl, rfl, rfl⟩ := h
    exact ⟨rfl, fun hh => by cases hh⟩
  | some buf =>
    rw [hi] at h
    dsimp only at h
    cases hq : k (Call.ioctl r.fd_ (.QBUF buf.v4l2_buf.index) :: tr) with
    | fail =>
      rw [hq] at h
      simp only [Prod.mk.injEq] at h
      obtain ⟨rfl, rfl, rfl⟩ := h
      exact ⟨rfl, fun hh => by cases hh⟩
    | ok a b =>
      rw [hq] at h
      simp only [Prod.mk.injEq] at h
      obtain ⟨rfl, rfl, rfl⟩ := h
      exact ⟨rfl, fun _ => ⟨buf, a, b, rfl, rfl, hq⟩⟩

theorem queue_all_loop_spec (k : Kernel) (todo : Nat) :
    ∀ (i : Nat) (tr tr1 : List Call) (r r1 : CameraRingBuffer) (res : Except Err Unit),
      queue_all_loop k todo i tr r = (res, tr1, r1) →
      r1 = r ∧ (res = .ok () → Quiet tr tr1) := by
  induction todo with
  | zero =>
    intro i tr tr1 r r1 res h
    simp only [queue_all_loop, Prod.mk.injEq] at h
    obtain ⟨rfl, rfl, rfl⟩ := h
    exact ⟨rfl, fun _ => quiet_refl _⟩
  | succ todo ih =>
    intro i tr tr1 r r1 res h
    unfold queue_all_loop at h
    cases hq : r.queue_buffer k tr i with
    | mk res0 rest =>
      obtain ⟨tr0, r0⟩ := rest
      rw [hq] at h
      obtain ⟨hr0, hok⟩ := queue_buffer_spec k tr tr0 r r0 i res0 hq
      cases res0 with
      | error e =>
        simp only [Prod.mk.injEq] at h
        obtain ⟨rfl, rfl, rfl⟩ := h
        exact ⟨hr0, fun hh => by cases hh⟩
      | ok u =>
        dsimp only at h
        obtain ⟨h1, h2⟩ := ih _ _ _ _ _ _ h
        refine ⟨h1.trans hr0, fun hres => ?_⟩
        obtain ⟨buf, a, b, -, htr0, -⟩ := hok rfl
        refine quiet_trans ?_ (h2 hres)
        rw [htr0]
        exact quiet_cons (Call.ioctl _ (Req.QBUF _)) rfl

/-- A successful `initialize()` keeps the ring invariant, leaves the ring initialized and
issues no `DQBUF`. -/
theorem initialize_ring_ok (k : Kernel) (tr tr1 : List Call) (r r1 : CameraRingBuffer)
    (h : r.initialize_ring k tr = (.ok (), tr1, r1)) (hinv : RingInv r) :
    RingInv r1 ∧ r1.initialized_ = true ∧ r1.fd_ = r.fd_ ∧ r1.streaming_ = r.streaming_ ∧
      Quiet tr tr1 := by
  unfold initialize_ring at h
  by_cases hi : r.initialized_ = true
  · rw [if_pos hi] at h
    simp only [Prod.mk.injEq] at h
    obtain ⟨-, rfl, rfl⟩ := h
    exact ⟨hinv, hi, rfl, rfl, quiet_refl _⟩
  · rw [if_neg hi] at h
    unfold request_buffers at h
    dsimp only at h
    cases hq : k (Call.ioctl r.fd_ (.REQBUFS (u32 r.buffers_.length)) :: tr) with
    | fail => rw [hq] at h; simp at h
    | ok n x =>
      rw [hq] at h
      dsimp only at h
      cases hm : map_buffers k (Call.ioctl r.fd_ (.REQBUFS (u32 r.buffers_.length)) :: tr)
          { r with buffers_ := resize r.buffers_ (u32 n) } with
      | mk res rest =>
        obtain ⟨tr2, r2⟩ := rest
        rw [hm] at h
        cases res with
        | error e => simp at h
        | ok u =>
          simp only [Prod.mk.injEq] at h
          obtain ⟨-, rfl, rfl⟩ := h
          unfold map_buffers at hm
          dsimp only at hm
          have hframe := map_buffers_loop_frame k (resize r.buffers_ (u32 n)).length 0
            (Call.ioctl r.fd_ (.REQBUFS (u32 r.buffers_.length)) :: tr)
            { r with buffers_ := resize r.buffers_ (u32 n) }
          rw [hm] at hframe
          obtain ⟨hfd, -, hfs, hfl⟩ := hframe
          dsimp only at hfd hfs hfl
          rw [length_resize] at hfl
          obtain ⟨hquiet, hidx⟩ := map_buffers_loop_ok k _ _ _ _ _ _ hm
          rw [length_resize] at hidx
          have hinv1 : RingInv { r2 with initialized_ := true } := by
            refine ⟨fun hh => ?_, fun _ idx b hb => ?_, fun _ => ?_, fun _ => rfl⟩
            · cases hh
            · have hlt : idx < r2.buffers_.length := by
                by_contra hcon
                rw [List.getElem?_eq_none_iff.2 (not_lt.1 hcon)] at hb
                cases hb
              rw [(hidx idx b hb).1 (Nat.zero_le _) (by omega)]
              exact u32_of_lt _ (lt_trans (by omega) (u32_lt n))
            · show r2.buffers_.length < 2 ^ 32
              rw [hfl]; exact u32_lt n
          refine ⟨hinv1, rfl, hfd, hfs, ?_⟩
          exact quiet_trans (quiet_cons (Call.ioctl _ (Req.REQBUFS _)) rfl) hquiet

/-- A successful `start_streaming()` keeps the ring invariant, leaves the ring streaming and
issues no `DQBUF`. -/
theorem start_streaming_ok (k : Kernel) (tr tr1 : List Call) (r r1 : CameraRingBuffer)
    (h : r.start_streaming k tr = (.ok (), tr1, r1)) (hinv : RingInv r) :
    RingInv r1 ∧ r1.streaming_ = true ∧ r1.fd_ = r.fd_ ∧ Quiet tr tr1 := by
  unfold start_streaming at h
  by_cases hs : r.streaming_ = true
  · rw [if_pos hs] at h
    simp only [Prod.mk.injEq] at h
    obtain ⟨-, rfl, rfl⟩ := h
    exact ⟨hinv, hs, rfl, quiet_refl _⟩
  · rw [if_neg hs] at h
    cases hi : r.initialize_ring k tr with
    | mk res rest =>
      obtain ⟨tr2, r2⟩ := rest
      rw [hi] at h
      cases res with
      | error e => simp at h
      | ok u =>
        dsimp only at h
        obtain ⟨hinv2, hinit2, hfd2, -, hq2⟩ := initialize_ring_ok k tr tr2 r r2 hi hinv
        cases hqa : r2.queue_all k tr2 with
        | mk res3 rest3 =>
          obtain ⟨tr3, r3⟩ := rest3
          rw [hqa] at h
          cases res3 with
          | error e => simp at h
          | ok u3 =>
            dsimp only at h
            obtain ⟨hr3, hq3⟩ := queue_all_loop_spec k _ _ _ _ _ _ _ hqa
            subst hr3
            cases hon : k (Call.ioctl r3.fd_ Req.STREAMON :: tr3) with
            | fail => rw [hon] at h; simp at h
            | ok a b =>
              rw [hon] at h
              simp only [Prod.mk.injEq] at h
              obtain ⟨-, rfl, rfl⟩ := h
              refine ⟨⟨fun hh => ?_, hinv2.index, hinv2.count, fun _ => hinit2⟩, rfl, hfd2, ?_⟩
              · exact absurd hinit2 (by rw [show r3.initialized_ = false from hh]; simp)
              · exact quiet_trans (quiet_trans hq2 (hq3 rfl))
                  (quiet_cons (Call.ioctl _ Req.STREAMON) rfl)

end CameraRingBuffer

theorem toSizeT_toInt32_of_lt (a n : Nat) (hn : n < 2 ^ 32)
    (hlt : toSizeT (toInt32 (u32 a)) < n) : toSizeT (toInt32 (u32 a)) = u32 a := by
  have hv : u32 a < 2 ^ 32 := CameraRingBuffer.u32_lt a
  generalize u32 a = v at *
  unfold toSizeT toInt32 at *
  norm_num at *
  split_ifs at * <;> omega

theorem pullPairs_append {k : Kernel} {a b : Nat} {tr tr1 tr2 : List Call}
    (h1 : PullPairs k a tr tr1) (h2 : PullPairs k b tr1 tr2) : PullPairs k (a + b) tr tr2 := by
  induction h2 with
  | zero => simpa using h1
  | succ n _ tr3 pre fd x y x1 y1 _ hpre hk hk1 ih =>
    exact PullPairs.succ (a + n) tr tr3 pre fd x y x1 y1 (ih h1) hpre hk hk1

theorem pullPairs_count {k : Kernel} {n : Nat} {tr tr1 : List Call}
    (h : PullPairs k n tr tr1) : dequeueCount tr1 = dequeueCount tr + n := by
  induction h with
  | zero => rfl
  | succ n _ tr3 pre fd x y x1 y1 _ hpre hk hk1 ih =>
    simp only [dequeueCount, CameraRingBuffer.dequeueCount_append, hpre, ih]
    omega

namespace Camera

variable {F : Type}

theorem session_start_streaming_ok (k : Kernel) (tr tr1 : List Call) (c c1 : Camera F)
    (h : c.start_streaming k tr = (.ok (), tr1, c1)) (hinv : SessionInv c) :
    SessionInv c1 ∧ c1.streaming_ = true ∧ Quiet tr tr1 := by
  unfold start_streaming at h
  by_cases hs : c.streaming_ = true
  · rw [if_pos hs] at h
    simp only [Prod.mk.injEq] at h
    obtain ⟨-, rfl, rfl⟩ := h
    exact ⟨hinv, hs, CameraRingBuffer.quiet_refl _⟩
  · rw [if_neg hs] at h
    cases hr : c.ring_.start_streaming k tr with
    | mk res rest =>
      obtain ⟨tr2, r2⟩ := rest
      rw [hr] at h
      cases res with
      | error e => simp at h
      | ok u =>
        simp only [Prod.mk.injEq] at h
        obtain ⟨-, rfl, rfl⟩ := h
        obtain ⟨hinv2, hs2, -, hq⟩ := CameraRingBuffer.start_streaming_ok k tr tr2 _ r2 hr hinv.ring
        exact ⟨⟨hinv2, hs2.symm⟩, rfl, hq⟩

/-- One successful frame pull: the session invariant is kept, and the calls issued are
calls other than `DQBUF` (a lazy start), then one `DQBUF`, answered with slot `a`, then one
accepted `QBUF` of slot `a`. -/
theorem next_ok (k : Kernel) (tr tr1 : List Call) (c c1 : Camera F) (frame : Frame)
    (h : c.__next__ k tr = (.ok frame, tr1, c1)) (hinv : SessionInv c) :
    SessionInv c1 ∧ PullPairs k 1 tr tr1 := by
  unfold __next__ at h
  have hstart : ∀ (res : Except Err Unit) (tr2 : List Call) (c2 : Camera F),
      (if !c.is_streaming then c.start_streaming k tr else (.ok (), tr, c)) = (res, tr2, c2) →
      res = .ok () → SessionInv c2 ∧ c2.streaming_ = true ∧ Quiet tr tr2 := by
    intro res tr2 c2 hif hres
    subst hres
    by_cases hs : c.streaming_ = true
    · simp only [is_streaming, hs, Bool.not_true, Bool.false_eq_true, if_false,
        Prod.mk.injEq] at hif
      obtain ⟨-, rfl, rfl⟩ := hif
      exact ⟨hinv, hs, CameraRingBuffer.quiet_refl _⟩
    · have hs2 : c.streaming_ = false := by simpa using hs
      simp only [is_streaming, hs2, Bool.not_false, if_true] at hif
      exact session_start_streaming_ok k tr tr2 c c2 hif hinv
  cases hif : (if !c.is_streaming then c.start_streaming k tr else (.ok (), tr, c)) with
  | mk res rest =>
    obtain ⟨tr2, c2⟩ := rest
    rw [hif] at h
    cases res with
    | error e => simp at h
    | ok u =>
      dsimp only at h
      obtain ⟨hinv2, hs2, hq2⟩ := hstart _ _ _ hif rfl
      have hinit2 : c2.ring_.initialized_ = true :=
        hinv2.ring.streaming (by rw [← hinv2.flags]; exact hs2)
      unfold CameraRingBuffer.dequeue_buffer at h
      dsimp only at h
      cases hd : k (Call.ioctl c2.ring_.fd_ Req.DQBUF :: tr2) with
      | fail => rw [hd] at h; simp at h
      | ok a b =>
        rw [hd] at h
        dsimp only at h
        split_ifs at h with hm1
        · simp at h
        · cases hc : capture_frame { c2 with ring_ := c2.ring_ } (toInt32 (u32 a)) with
          | error e => rw [hc] at h; simp at h
          | ok fr =>
            rw [hc] at h
            dsimp only at h
            cases hqb : c2.ring_.queue_buffer k (Call.ioctl c2.ring_.fd_ Req.DQBUF :: tr2)
                (toSizeT (toInt32 (u32 a))) with
            | mk res3 rest3 =>
              obtain ⟨tr3, r3⟩ := rest3
              rw [hqb] at h
              cases res3 with
              | error e => simp at h
              | ok u3 =>
                simp only [Prod.mk.injEq] at h
                obtain ⟨-, rfl, rfl⟩ := h
                obtain ⟨hr3, hok⟩ := CameraRingBuffer.queue_buffer_spec k _ _ _ _ _ _ hqb
                subst hr3
                obtain ⟨buf, a1, b1, hbuf, htr3, hk3⟩ := hok rfl
                have hlt : toSizeT (toInt32 (u32 a)) < c2.ring_.buffers_.length := by
                  by_contra hcon
                  rw [List.getElem?_eq_none_iff.2 (not_lt.1 hcon)] at hbuf
                  cases hbuf
                have hsz := toSizeT_toInt32_of_lt a _ (hinv2.ring.count hinit2) hlt
                have hidx : buf.v4l2_buf.index = u32 a := by
                  rw [hinv2.ring.index hinit2 _ _ hbuf, hsz]
                obtain ⟨pre, rfl, hpre⟩ := hq2
                refine ⟨⟨hinv2.ring, hinv2.flags⟩, ?_⟩
                rw [htr3, hidx]
                rw [htr3, hidx] at hk3
                exact PullPairs.succ 0 tr tr pre _ a b a1 b1 (PullPairs.zero tr) hpre hd hk3

end Camera

/-- C2: after `n` consecutive successful frame pulls of a session, the history has grown
by exactly `n` dequeue-requeue pairs: `n` `DQBUF` calls were issued, and each is followed
directly, before its pull returns, by an accepted `QBUF` of the slot index the kernel
handed out. -/
theorem pulls_requeue {F : Type} (k : Kernel) (n : Nat) :
    ∀ (tr tr1 : List Call) (c c1 : Camera F), SessionInv c →
      pulls k n tr c = some (tr1, c1) →
      PullPairs k n tr tr1 ∧ dequeueCount tr1 = dequeueCount tr + n ∧ SessionInv c1 := by
  induction n with
  | zero =>
    intro tr tr1 c c1 hinv h
    simp only [pulls, Option.some.injEq, Prod.mk.injEq] at h
    obtain ⟨rfl, rfl⟩ := h
    exact ⟨PullPairs.zero tr, rfl, hinv⟩
  | succ n ih =>
    intro tr tr1 c c1 hinv h
    unfold pulls at h
    cases hn : c.__next__ k tr with
    | mk res rest =>
      obtain ⟨tr2, c2⟩ := rest
      rw [hn] at h
      cases res with
      | error e => simp at h
      | ok frame =>
        dsimp only at h
        obtain ⟨hinv2, hp2⟩ := Camera.next_ok k tr tr2 c c2 frame hn hinv
        obtain ⟨hp, -, hinv1⟩ := ih tr2 tr1 c2 c1 hinv2 h
        have hall := pullPairs_append hp2 hp
        rw [Nat.add_comm] at hall
        exact ⟨hall, pullPairs_count hall, hinv1⟩

theorem selectedCamera_inv : SessionInv selectedCamera := by
  refine ⟨⟨fun _ b hb => ?_, fun h => (by cases h), fun h => (by cases h),
    fun h => (by cases h)⟩, rfl⟩
  simp only [selectedCamera, CameraRingBuffer.new, List.mem_replicate] at hb
  rw [hb.2]

theorem pulls_requeue_witness :
    SessionInv selectedCamera ∧
      pulls acceptAll 2 [] selectedCamera = some (twoPullsTrace, streamingCamera) ∧
      PullPairs acceptAll 2 [] twoPullsTrace ∧
      dequeueCount twoPullsTrace = dequeueCount [] + 2 ∧ SessionInv streamingCamera :=
  ⟨selectedCamera_inv, rfl,
    pulls_requeue acceptAll 2 [] twoPullsTrace selectedCamera streamingCamera
      selectedCamera_inv rfl⟩

/-! ### Enumeration of the candidates (C5) -/

theorem frm_is_discrete_iff (res : v4l2_frmsizeenum) :
    frm_is_discrete res = true ↔ ReportedDiscreteSize res := by
  simp [frm_is_discrete, V4L2_FRMSIZE_TYPE_DISCRETE, ReportedDiscreteSize]

theorem frm_ival_is_discrete_iff (ival : v4l2_frmivalenum) :
    frm_ival_is_discrete ival = true ↔ ReportedDiscreteInterval ival := by
  simp [frm_ival_is_discrete, V4L2_FRMIVAL_TYPE_DISCRETE, ReportedDiscreteInterval]

section Enumeration
variable {F : Type}

end Enumeration

section Enumeration2
variable {F : Type} [LE F] [LT F] [Zero F] [OfScientific F] [∀ a b : F, Decidable (a ≤ b)]
  [∀ a b : F, Decidable (a < b)]

end Enumeration2

/-- The candidates of `mixedDevice`, whatever the quotient: the three discrete intervals of
640x480 `YUYV`, and nothing of the compressed `MJPG`, of the stepwise resolution or of the
continuous interval. -/
theorem mixedDevice_candidates {F : Type} (quot : Nat → Nat → F) :
    expectedCandidates quot mixedDevice
      = [{ fps := quot 30 1, pixelformat := 1448695129, width := 640, height := 480,
           description := "YUYV" },
         { fps := quot 15 1, pixelformat := 1448695129, width := 640, height := 480,
           description := "YUYV" },
         { fps := quot 30 0, pixelformat := 1448695129, width := 640, height := 480,
           description := "YUYV" }] := by
  simp [expectedCandidates, mixedDevice, ReportedCompressed, ReportedDiscreteSize,
    ReportedDiscreteInterval, tripleCandidate]

/-! ### The session after `close()` (C6) -/

namespace CameraRingBuffer

end CameraRingBuffer

namespace Camera

variable {F : Type}

end Camera

/-- C10: the code at the failing input.  Against a kernel that rejects the first
`STREAMON`, `start_streaming()` throws with the three slots queued and the session not
streaming; the retried `start_streaming()` submits the same three slots again although
none was dequeued or released in between. -/
theorem retried_start_submits_queued_slots :
    selectedCamera.start_streaming firstStreamonFails []
        = (.error .streamon, startTrace, stalledCamera) ∧
      queuedSlots firstStreamonFails startTrace = [2, 1, 0] ∧
      submitsQueued firstStreamonFails startTrace = false ∧
      stalledCamera.start_streaming firstStreamonFails startTrace
        = (.ok (), retriedStartTrace, streamingCamera) ∧
      submitsQueued firstStreamonFails retriedStartTrace = true :=
  ⟨rfl, by decide, by decide, rfl, by decide⟩

/-! ### The scores of the two-format scenario (C9) -/

namespace CameraRingBuffer

/-- Whatever its outcome, `initialize()` keeps the ring invariant, the descriptor and the
streaming flag. -/
theorem initialize_ring_inv (k : Kernel) (tr tr1 : List Call) (r r1 : CameraRingBuffer)
    (res : Except Err Unit) (h : r.initialize_ring k tr = (res, tr1, r1)) (hinv : RingInv r) :
    RingInv r1 ∧ r1.fd_ = r.fd_ ∧ r1.streaming_ = r.streaming_ := by
  cases res with
  | ok u =>
    obtain ⟨h1, -, h3, h4, -⟩ := initialize_ring_ok k tr tr1 r r1 h hinv
    exact ⟨h1, h3, h4⟩
  | error e =>
    unfold initialize_ring at h
    by_cases hi : r.initialized_ = true
    · rw [if_pos hi] at h
      simp at h
    · rw [if_neg hi] at h
      have hi2 : r.initialized_ = false := by simpa using hi
      have hs2 : r.streaming_ = false := by
        cases hs : r.streaming_ with
        | false => rfl
        | true => exact absurd (hinv.streaming hs) hi
      unfold request_buffers at h
      dsimp only at h
      cases hq : k (Call.ioctl r.fd_ (.REQBUFS (u32 r.buffers_.length)) :: tr) with
      | fail =>
        rw [hq] at h
        simp only [Prod.mk.injEq] at h
        obtain ⟨-, -, rfl⟩ := h
        exact ⟨hinv, rfl, rfl⟩
      | ok n x =>
        rw [hq] at h
        dsimp only at h
        cases hm : map_buffers k (Call.ioctl r.fd_ (.REQBUFS (u32 r.buffers_.length)) :: tr)
            { r with buffers_ := resize r.buffers_ (u32 n) } with
        | mk res2 rest =>
          obtain ⟨tr2, r2⟩ := rest
          rw [hm] at h
          cases res2 with
          | ok u => simp at h
          | error e2 =>
            simp only [Prod.mk.injEq] at h
            obtain ⟨-, -, rfl⟩ := h
            unfold map_buffers at hm
            dsimp only at hm
            have hframe := map_buffers_loop_frame k (resize r.buffers_ (u32 n)).length 0
              (Call.ioctl r.fd_ (.REQBUFS (u32 r.buffers_.length)) :: tr)
              { r with buffers_ := resize r.buffers_ (u32 n) }
            rw [hm] at hframe
            obtain ⟨hfd, hfi, hfs, -⟩ := hframe
            dsimp only at hfd hfi hfs
            obtain ⟨kk, Y, -, -, -, hnone, -⟩ :=
              map_buffers_loop_error k _ _ _ _ _ _ _ hm (by
                intro idx b _ hb
                exact resize_all_none _ _ (hinv.unmapped hi2) b (List.getElem?_mem hb))
            have hri : r2.initialized_ = false := by rw [hfi, hi2]
            have hrs : r2.streaming_ = false := by rw [hfs, hs2]
            refine ⟨⟨fun _ => hnone, fun hh => ?_, fun hh => ?_, fun hh => ?_⟩, hfd,
              by rw [hfs]⟩
            · rw [hri] at hh; cases hh
            · rw [hri] at hh; cases hh
            · rw [hrs] at hh; cases hh

/-- Whatever its outcome, `start_streaming()` keeps the ring invariant and the descriptor;
the ring streams afterwards exactly when it did before or the call returned. -/
theorem start_streaming_inv (k : Kernel) (tr tr1 : List Call) (r r1 : CameraRingBuffer)
    (res : Except Err Unit) (h : r.start_streaming k tr = (res, tr1, r1)) (hinv : RingInv r) :
    RingInv r1 ∧ r1.fd_ = r.fd_ ∧
      (∀ e, res = .error e → r1.streaming_ = r.streaming_) ∧
      (res = .ok () → r1.streaming_ = true) := by
  cases res with
  | ok u =>
    obtain ⟨h1, h2, h3, -⟩ := start_streaming_ok k tr tr1 r r1 h hinv
    exact ⟨h1, h3, fun e he => (by cases he), fun _ => h2⟩
  | error e =>
    unfold start_streaming at h
    by_cases hs : r.streaming_ = true
    · rw [if_pos hs] at h
      simp at h
    · rw [if_neg hs] at h
      cases hi : r.initialize_ring k tr with
      | mk res2 rest =>
        obtain ⟨tr2, r2⟩ := rest
        rw [hi] at h
        obtain ⟨hinv2, hfd2, hs2⟩ := initialize_ring_inv k tr tr2 r r2 res2 hi hinv
        cases res2 with
        | error e2 =>
          simp only [Prod.mk.injEq] at h
          obtain ⟨-, -, rfl⟩ := h
          exact ⟨hinv2, hfd2, fun _ _ => hs2, fun he => by cases he⟩
        | ok u =>
          dsimp only at h
          cases hqa : r2.queue_all k tr2 with
          | mk res3 rest3 =>
            obtain ⟨tr3, r3⟩ := rest3
            rw [hqa] at h
            obtain ⟨hr3, -⟩ := queue_all_loop_spec k _ _ _ _ _ _ _ hqa
            subst hr3
            cases res3 with
            | error e3 =>
              simp only [Prod.mk.injEq] at h
              obtain ⟨-, -, rfl⟩ := h
              exact ⟨hinv2, hfd2, fun _ _ => hs2, fun he => by cases he⟩
            | ok u3 =>
              dsimp only at h
              cases hon : k (Call.ioctl r3.fd_ Req.STREAMON :: tr3) with
              | fail =>
                rw [hon] at h
                simp only [Prod.mk.injEq] at h
                obtain ⟨-, -, rfl⟩ := h
                exact ⟨hinv2, hfd2, fun _ _ => hs2, fun he => by cases he⟩
              | ok a b => rw [hon] at h; simp at h

/-- Whatever its outcome, `stop_streaming()` keeps the ring invariant and the descriptor;
the ring has stopped when the call returned and streams as before when it threw. -/
theorem stop_streaming_inv (k : Kernel) (tr tr1 : List Call) (r r1 : CameraRingBuffer)
    (res : Except Err Unit) (h : r.stop_streaming k tr = (res, tr1, r1)) (hinv : RingInv r) :
    RingInv r1 ∧ r1.fd_ = r.fd_ ∧
      (∀ e, res = .error e → r1.streaming_ = r.streaming_) ∧
      (res = .ok () → r1.streaming_ = false) := by
  unfold stop_streaming at h
  by_cases hs : r.streaming_ = true
  · simp only [hs, Bool.not_true, Bool.false_eq_true, if_false] at h
    cases hk : k (Call.ioctl r.fd_ Req.STREAMOFF :: tr) with
    | fail =>
      rw [hk] at h
      simp only [Prod.mk.injEq] at h
      obtain ⟨rfl, -, rfl⟩ := h
      exact ⟨hinv, rfl, fun _ _ => rfl, fun he => by cases he⟩
    | ok a b =>
      rw [hk] at h
      simp only [Prod.mk.injEq] at h
      obtain ⟨rfl, -, rfl⟩ := h
      exact ⟨⟨hinv.unmapped, hinv.index, hinv.count, fun hh => (by cases hh)⟩, rfl,
        fun e he => (by cases he), fun _ => rfl⟩
  · have hs2 : r.streaming_ = false := by simpa using hs
    simp only [hs2, Bool.not_false, if_true, Prod.mk.injEq] at h
    obtain ⟨rfl, -, rfl⟩ := h
    exact ⟨hinv, rfl, fun e he => (by cases he), fun _ => hs2⟩

end CameraRingBuffer

namespace Camera

variable {F : Type}

theorem session_start_streaming_inv (k : Kernel) (tr : List Call) (c : Camera F)
    (hinv : SessionInv c) :
    SessionInv (c.start_streaming k tr).2.2 ∧
      (c.start_streaming k tr).2.2.fd_ = c.fd_ ∧
      (c.start_streaming k tr).2.2.ring_.fd_ = c.ring_.fd_ := by
  unfold start_streaming
  by_cases hs : c.streaming_ = true
  · rw [if_pos hs]
    exact ⟨hinv, rfl, rfl⟩
  · rw [if_neg hs]
    have hs2 : c.streaming_ = false := by simpa using hs
    cases hr : c.ring_.start_streaming k tr with
    | mk res rest =>
      obtain ⟨tr2, r2⟩ := rest
      obtain ⟨h1, h2, h3, h4⟩ := CameraRingBuffer.start_streaming_inv k tr tr2 c.ring_ r2 res hr
        hinv.ring
      cases res with
      | error e =>
        refine ⟨⟨h1, ?_⟩, rfl, h2⟩
        show c.streaming_ = r2.streaming_
        rw [h3 e rfl]; exact hinv.flags
      | ok u =>
        refine ⟨⟨h1, ?_⟩, rfl, h2⟩
        show true = r2.streaming_
        rw [h4 rfl]

theorem session_stop_streaming_inv (k : Kernel) (tr : List Call) (c : Camera F)
    (hinv : SessionInv c) :
    SessionInv (c.stop_streaming k tr).2.2 ∧
      (c.stop_streaming k tr).2.2.fd_ = c.fd_ ∧
      (c.stop_streaming k tr).2.2.ring_.fd_ = c.ring_.fd_ := by
  unfold stop_streaming
  by_cases hs : (!c.streaming_) = true
  · rw [if_pos hs]
    exact ⟨hinv, rfl, rfl⟩
  · rw [if_neg hs]
    cases hr : c.ring_.stop_streaming k tr with
    | mk res rest =>
      obtain ⟨tr2, r2⟩ := rest
      obtain ⟨h1, h2, h3, h4⟩ := CameraRingBuffer.stop_streaming_inv k tr tr2 c.ring_ r2 res hr
        hinv.ring
      cases res with
      | error e =>
        refine ⟨⟨h1, ?_⟩, rfl, h2⟩
        show c.streaming_ = r2.streaming_
        rw [h3 e rfl]; exact hinv.flags
      | ok u =>
        refine ⟨⟨h1, ?_⟩, rfl, h2⟩
        show false = r2.streaming_
        rw [h4 rfl]

theorem set_format_inv (k : Kernel) (tr : List Call) (c : Camera F) (index : Nat)
    (hinv : SessionInv c) :
    SessionInv (c.set_format k tr index).2.2 ∧
      (c.set_format k tr index).2.2.fd_ = c.fd_ ∧
      (c.set_format k tr index).2.2.ring_.fd_ = c.ring_.fd_ := by
  unfold set_format
  cases hi : c.formats_[index]? with
  | none => exact ⟨hinv, rfl, rfl⟩
  | some fmt =>
    dsimp only
    unfold v4l2.set_format
    dsimp only
    cases hk : k (Call.ioctl c.fd_ (Req.S_FMT fmt.pixelformat fmt.width fmt.height) :: tr) with
    | fail => exact ⟨hinv, rfl, rfl⟩
    | ok a b => exact ⟨⟨hinv.ring, hinv.flags⟩, rfl, rfl⟩

theorem next_inv (k : Kernel) (tr : List Call) (c : Camera F) (hinv : SessionInv c) :
    SessionInv (c.__next__ k tr).2.2 ∧
      (c.__next__ k tr).2.2.fd_ = c.fd_ ∧
      (c.__next__ k tr).2.2.ring_.fd_ = c.ring_.fd_ := by
  have hstart : SessionInv
        (if !c.is_streaming then c.start_streaming k tr else (.ok (), tr, c)).2.2 ∧
      (if !c.is_streaming then c.start_streaming k tr else (.ok (), tr, c)).2.2.fd_ = c.fd_ ∧
      (if !c.is_streaming then c.start_streaming k tr else (.ok (), tr, c)).2.2.ring_.fd_
        = c.ring_.fd_ := by
    split_ifs
    · exact session_start_streaming_inv k tr c hinv
    · exact ⟨hinv, rfl, rfl⟩
  unfold __next__
  cases hif : (if !c.is_streaming then c.start_streaming k tr else (.ok (), tr, c)) with
  | mk res rest =>
    obtain ⟨tr2, c2⟩ := rest
    rw [hif] at hstart
    obtain ⟨h1, h2, h3⟩ := hstart
    dsimp only at h1 h2 h3
    cases res with
    | error e => exact ⟨h1, h2, h3⟩
    | ok u =>
      dsimp only
      unfold CameraRingBuffer.dequeue_buffer
      dsimp only
      cases hd : k (Call.ioctl c2.ring_.fd_ Req.DQBUF :: tr2) with
      | fail =>
        dsimp only
        simp only [if_true]
        exact ⟨⟨h1.ring, h1.flags⟩, h2, h3⟩
      | ok a b =>
        dsimp only
        split_ifs with hm1
        · exact ⟨⟨h1.ring, h1.flags⟩, h2, h3⟩
        · cases hc : capture_frame { c2 with ring_ := c2.ring_ } (toInt32 (u32 a)) with
          | error e => exact ⟨⟨h1.ring, h1.flags⟩, h2, h3⟩
          | ok fr =>
            dsimp only
            cases hqb : c2.ring_.queue_buffer k (Call.ioctl c2.ring_.fd_ Req.DQBUF :: tr2)
                (toSizeT (toInt32 (u32 a))) with
            | mk res3 rest3 =>
              obtain ⟨tr3, r3⟩ := rest3
              obtain ⟨hr3, -⟩ := CameraRingBuffer.queue_buffer_spec k _ _ _ _ _ _ hqb
              subst hr3
              cases res3 with
              | error e => exact ⟨⟨h1.ring, h1.flags⟩, h2, h3⟩
              | ok u3 => exact ⟨⟨h1.ring, h1.flags⟩, h2, h3⟩

end Camera

/-- Whatever its outcome, `close()` keeps the session invariant. -/
theorem close_camera_inv {F : Type} (k : Kernel) (tr : List Call) (c : Camera F)
    (hinv : SessionInv c) : SessionInv (c.close_camera k tr).2.2 := by
  unfold Camera.close_camera
  obtain ⟨h1, -, -⟩ := Camera.session_stop_streaming_inv k tr c hinv
  cases hst : c.stop_streaming k tr with
  | mk res rest =>
    obtain ⟨tr2, c2⟩ := rest
    rw [hst] at h1
    cases res with
    | error e => exact h1
    | ok u =>
      dsimp only
      split_ifs
      · exact ⟨h1.ring, h1.flags⟩
      · exact h1

/-- Every operation of a session, returning or throwing, keeps the session invariant; every
operation but `close()` keeps the descriptor of the session and that of its ring. -/
theorem runOp_inv {F : Type} (k : Kernel) (tr : List Call) (c : Camera F) (op : Op)
    (hinv : SessionInv c) :
    SessionInv (runOp k tr c op).2 ∧
      (op ≠ Op.close → c.ring_.fd_ = c.fd_ →
        (runOp k tr c op).2.ring_.fd_ = (runOp k tr c op).2.fd_) := by
  cases op with
  | set_format index =>
    obtain ⟨h1, h2, h3⟩ := Camera.set_format_inv k tr c index hinv
    exact ⟨h1, fun _ hfd => by rw [runOp, h3, h2, hfd]⟩
  | start_streaming =>
    obtain ⟨h1, h2, h3⟩ := Camera.session_start_streaming_inv k tr c hinv
    exact ⟨h1, fun _ hfd => by rw [runOp, h3, h2, hfd]⟩
  | stop_streaming =>
    obtain ⟨h1, h2, h3⟩ := Camera.session_stop_streaming_inv k tr c hinv
    exact ⟨h1, fun _ hfd => by rw [runOp, h3, h2, hfd]⟩
  | next =>
    obtain ⟨h1, h2, h3⟩ := Camera.next_inv k tr c hinv
    exact ⟨h1, fun _ hfd => by rw [runOp, h3, h2, hfd]⟩
  | close => exact ⟨close_camera_inv k tr c hinv, fun h _ => absurd rfl h⟩

theorem runOps_inv {F : Type} (k : Kernel) (ops : List Op) :
    ∀ (s : List Call × Camera F), SessionInv s.2 →
      SessionInv (runOps k ops s).2 ∧
        (Op.close ∉ ops → s.2.ring_.fd_ = s.2.fd_ →
          (runOps k ops s).2.ring_.fd_ = (runOps k ops s).2.fd_) := by
  induction ops with
  | nil => intro s h1; exact ⟨h1, fun _ h2 => h2⟩
  | cons op ops ih =>
    intro s h1
    obtain ⟨h3, h4⟩ := runOp_inv k s.1 s.2 op h1
    obtain ⟨h5, h6⟩ := ih (runOp k s.1 s.2 op) h3
    refine ⟨h5, fun hno hfd => ?_⟩
    have hop : op ≠ Op.close := fun h => hno (by rw [h]; exact List.mem_cons_self _ _)
    have hops : Op.close ∉ ops := fun h => hno (List.mem_cons_of_mem _ h)
    exact h6 hops (h4 hop hfd)

theorem close_camera_fd {F : Type} (k : Kernel) (tr : List Call) (c : Camera F)
    (hinv : SessionInv c) :
    (c.close_camera k tr).2.2.fd_ = -1 ∨ (c.close_camera k tr).2.2.fd_ = c.fd_ := by
  unfold Camera.close_camera
  obtain ⟨-, h1, -⟩ := Camera.session_stop_streaming_inv k tr c hinv
  cases hst : c.stop_streaming k tr with
  | mk res rest =>
    obtain ⟨tr2, c2⟩ := rest
    rw [hst] at h1
    cases res with
    | error e => exact Or.inr h1
    | ok u =>
      dsimp only
      split_ifs
      · exact Or.inl rfl
      · exact Or.inr h1

theorem runOp_fd_ge {F : Type} (k : Kernel) (tr : List Call) (c : Camera F) (op : Op)
    (hinv : SessionInv c) (hge : -1 ≤ c.fd_) : -1 ≤ (runOp k tr c op).2.fd_ := by
  cases op with
  | set_format index =>
    obtain ⟨-, h2, -⟩ := Camera.set_format_inv k tr c index hinv
    rw [runOp, h2]; exact hge
  | start_streaming =>
    obtain ⟨-, h2, -⟩ := Camera.session_start_streaming_inv k tr c hinv
    rw [runOp, h2]; exact hge
  | stop_streaming =>
    obtain ⟨-, h2, -⟩ := Camera.session_stop_streaming_inv k tr c hinv
    rw [runOp, h2]; exact hge
  | next =>
    obtain ⟨-, h2, -⟩ := Camera.next_inv k tr c hinv
    rw [runOp, h2]; exact hge
  | close =>
    rcases close_camera_fd k tr c hinv with h | h
    · rw [runOp, h]
    · rw [runOp, h]; exact hge

theorem runOps_fd_ge {F : Type} (k : Kernel) (ops : List Op) :
    ∀ (s : List Call × Camera F), SessionInv s.2 → -1 ≤ s.2.fd_ →
      -1 ≤ (runOps k ops s).2.fd_ := by
  induction ops with
  | nil => intro s _ h2; exact h2
  | cons op ops ih =>
    intro s h1 h2
    exact ih (runOp k s.1 s.2 op) (runOp_inv k s.1 s.2 op h1).1 (runOp_fd_ge k s.1 s.2 op h1 h2)

section Construction
variable {F : Type} [LE F] [LT F] [Zero F] [OfScientific F] [∀ a b : F, Decidable (a ≤ b)]
  [∀ a b : F, Decidable (a < b)]

theorem discover_interval_frame (m : Libm F) (f : Format F) (st : WithBot F × Camera F)
    (iv : FrameInterval F) :
    (Camera.discover_interval m f st iv).2.ring_ = st.2.ring_ ∧
      (Camera.discover_interval m f st iv).2.fd_ = st.2.fd_ ∧
      (Camera.discover_interval m f st iv).2.streaming_ = st.2.streaming_ := by
  unfold Camera.discover_interval
  dsimp only
  split_ifs <;> exact ⟨rfl, rfl, rfl⟩

theorem discover_loop_frame (m : Libm F) (fmts : List (Format F)) (c0 : Camera F) :
    (Camera.discover_loop m fmts c0).ring_ = c0.ring_ ∧
      (Camera.discover_loop m fmts c0).fd_ = c0.fd_ ∧
      (Camera.discover_loop m fmts c0).streaming_ = c0.streaming_ := by
  have key : ∀ (fmts : List (Format F)) (st : WithBot F × Camera F),
      (fmts.foldl (fun st v4l2_fmt =>
          v4l2_fmt.intervals.foldl (Camera.discover_interval m v4l2_fmt) st) st).2.ring_
        = st.2.ring_ ∧
      (fmts.foldl (fun st v4l2_fmt =>
          v4l2_fmt.intervals.foldl (Camera.discover_interval m v4l2_fmt) st) st).2.fd_
        = st.2.fd_ ∧
      (fmts.foldl (fun st v4l2_fmt =>
          v4l2_fmt.intervals.foldl (Camera.discover_interval m v4l2_fmt) st) st).2.streaming_
        = st.2.streaming_ := by
    intro fmts
    induction fmts with
    | nil => intro st; exact ⟨rfl, rfl, rfl⟩
    | cons f fs ih =>
      intro st
      rw [List.foldl_cons]
      have hin : ∀ (ivs : List (FrameInterval F)) (st : WithBot F × Camera F),
          (ivs.foldl (Camera.discover_interval m f) st).2.ring_ = st.2.ring_ ∧
          (ivs.foldl (Camera.discover_interval m f) st).2.fd_ = st.2.fd_ ∧
          (ivs.foldl (Camera.discover_interval m f) st).2.streaming_ = st.2.streaming_ := by
        intro ivs
        induction ivs with
        | nil => intro st; exact ⟨rfl, rfl, rfl⟩
        | cons iv ivs ih2 =>
          intro st
          rw [List.foldl_cons]
          obtain ⟨a1, a2, a3⟩ := ih2 (Camera.discover_interval m f st iv)
          obtain ⟨b1, b2, b3⟩ := discover_interval_frame m f st iv
          exact ⟨a1.trans b1, a2.trans b2, a3.trans b3⟩
      obtain ⟨a1, a2, a3⟩ := ih (f.intervals.foldl (Camera.discover_interval m f) st)
      obtain ⟨b1, b2, b3⟩ := hin f.intervals st
      exact ⟨a1.trans b1, a2.trans b2, a3.trans b3⟩
  exact key fmts ((0 : WithBot F), c0)

theorem ringInv_new (fd : Int) (n : Nat) : RingInv (CameraRingBuffer.new fd n) := by
  refine ⟨fun _ b hb => ?_, fun h => ?_, fun h => ?_, fun h => ?_⟩
  · simp only [CameraRingBuffer.new, List.mem_replicate] at hb
    rw [hb.2]
  · cases h
  · cases h
  · cases h

theorem open_device_nonneg (k : Kernel) (tr tr1 : List Call) (path : String) (fd : Int)
    (h : Camera.open_device k tr path = (.ok fd, tr1)) : 0 ≤ fd := by
  unfold Camera.open_device at h
  dsimp only at h
  cases hk : k (Call.open_ path :: tr) with
  | fail => rw [hk] at h; simp at h
  | ok a b =>
    rw [hk] at h
    simp only [Prod.mk.injEq, Except.ok.injEq] at h
    rw [← h.1]
    exact Int.natCast_nonneg a

/-- The session the constructor returns satisfies the session invariant, its ring holds
the descriptor of the session, and that descriptor is not negative. -/
theorem new_inv (m : Libm F) (dev : Device) (k : Kernel) (fuel : Nat) (tr tr1 : List Call)
    (device : String) (c : Camera F)
    (h : Camera.new m dev k fuel tr device = some (.ok c, tr1)) :
    SessionInv c ∧ c.ring_.fd_ = c.fd_ ∧ 0 ≤ c.fd_ := by
  unfold Camera.new at h
  cases ho : Camera.open_device k tr device with
  | mk res tr2 =>
    rw [ho] at h
    cases res with
    | error e => simp at h
    | ok fd =>
      have hfd0 : 0 ≤ fd := open_device_nonneg k tr tr2 device fd ho
      dsimp only at h
      cases hv : Camera.validate_capabilities k tr2 fd with
      | mk res2 tr3 =>
        rw [hv] at h
        cases res2 with
        | error e => simp at h
        | ok u =>
          dsimp only at h
          unfold Camera.discover_formats at h
          cases he : enumerate_formats m.quot dev fuel with
          | none => rw [he] at h; simp at h
          | some fmts =>
            rw [he] at h
            dsimp only at h
            obtain ⟨f1, f2, f3⟩ := discover_loop_frame m fmts
              ({ fd_ := fd, ring_ := CameraRingBuffer.new fd } : Camera F)
            have hbase : SessionInv (Camera.discover_loop m fmts
                ({ fd_ := fd, ring_ := CameraRingBuffer.new fd } : Camera F)) ∧
                (Camera.discover_loop m fmts
                  ({ fd_ := fd, ring_ := CameraRingBuffer.new fd } : Camera F)).ring_.fd_
                = (Camera.discover_loop m fmts
                  ({ fd_ := fd, ring_ := CameraRingBuffer.new fd } : Camera F)).fd_ ∧
                0 ≤ (Camera.discover_loop m fmts
                  ({ fd_ := fd, ring_ := CameraRingBuffer.new fd } : Camera F)).fd_ := by
              refine ⟨⟨?_, ?_⟩, ?_, ?_⟩
              · rw [f1]; exact ringInv_new fd 3
              · rw [f3, f1]; rfl
              · rw [f1, f2]; rfl
              · rw [f2]; exact hfd0
            cases hb : (Camera.discover_loop m fmts
                ({ fd_ := fd, ring_ := CameraRingBuffer.new fd } : Camera F)).best_fmt_idx_ with
            | none =>
              rw [hb] at h
              simp only [Option.some.injEq, Prod.mk.injEq, Except.ok.injEq] at h
              obtain ⟨rfl, -⟩ := h
              exact hbase
            | some best =>
              rw [hb] at h
              dsimp only at h
              obtain ⟨s1, s2, s3⟩ := Camera.set_format_inv k tr3 _ best hbase.1
              cases hs : Camera.set_format k tr3 (Camera.discover_loop m fmts
                  ({ fd_ := fd, ring_ := CameraRingBuffer.new fd } : Camera F)) best with
              | mk res3 rest3 =>
                obtain ⟨tr4, c4⟩ := rest3
                rw [hs] at h s1 s2 s3
                cases res3 with
                | error e => simp at h
                | ok u3 =>
                  simp only [Option.some.injEq, Prod.mk.injEq, Except.ok.injEq] at h
                  obtain ⟨rfl, -⟩ := h
                  exact ⟨s1, by rw [s3, s2]; exact hbase.2.1, by rw [s2]; exact hbase.2.2⟩

/-- Every session reached from the constructor by operations that return or throw
satisfies the session invariant; until `close()` is called, its ring holds the descriptor
of the session. -/
theorem reachable_inv (m : Libm F) (dev : Device) (k : Kernel) (fuel : Nat)
    (tr tr1 : List Call) (device : String) (c : Camera F) (ops : List Op)
    (h : Camera.new m dev k fuel tr device = some (.ok c, tr1)) :
    SessionInv (runOps k ops (tr1, c)).2 ∧
      (Op.close ∉ ops →
        (runOps k ops (tr1, c)).2.ring_.fd_ = (runOps k ops (tr1, c)).2.fd_) := by
  obtain ⟨h1, h2, -⟩ := new_inv m dev k fuel tr tr1 device c h
  obtain ⟨h3, h4⟩ := runOps_inv k ops (tr1, c) h1
  exact ⟨h3, fun hno => h4 hno h2⟩

/-- Every session reached from the constructor holds a descriptor that is not below `-1`
(it is `-1` once `close()` has run), and its two streaming flags agree. -/
theorem reachable_fd_ge (m : Libm F) (dev : Device) (k : Kernel) (fuel : Nat)
    (tr tr1 : List Call) (device : String) (c : Camera F) (ops : List Op)
    (h : Camera.new m dev k fuel tr device = some (.ok c, tr1)) :
    -1 ≤ (runOps k ops (tr1, c)).2.fd_ ∧
      (runOps k ops (tr1, c)).2.streaming_ = (runOps k ops (tr1, c)).2.ring_.streaming_ := by
  obtain ⟨h1, -, h2⟩ := new_inv m dev k fuel tr tr1 device c h
  have h3 : -1 ≤ c.fd_ := le_trans (by decide) h2
  exact ⟨runOps_fd_ge k ops (tr1, c) h1 h3, (runOps_inv k ops (tr1, c) h1).1.flags⟩

end Construction

end VisionRT
